import Mathlib

/-!
# Verification of the `gh-todo` extension's pure core

A shallow embedding, over `List Char` (modelling JavaScript strings as
sequences of UTF-16 code units), of the pure string-processing functions of
`src/extensions/gh-todo` (section codec, naming conventions, CLI-output
parsing, session-context gathering) together with the control flow of the
`gh_todo` tool's `pr` action.  External runtime services (the `gh` CLI,
`JSON.parse`, git, the LLM completion API, the cancellation signal) are
modelled by explicit parameters carrying their outcomes.
-/

namespace GhTodo

/-- JavaScript whitespace (the characters removed by `String.prototype.trim`):
WhiteSpace and LineTerminator code points. -/
def isJsWs (c : Char) : Bool :=
  c.toNat = 9 || c.toNat = 10 || c.toNat = 11 || c.toNat = 12 ||
  c.toNat = 13 || c.toNat = 32 || c.toNat = 0xa0 || c.toNat = 0x1680 ||
  (0x2000 <= c.toNat && c.toNat <= 0x200a) || c.toNat = 0x2028 ||
  c.toNat = 0x2029 || c.toNat = 0x202f || c.toNat = 0x205f ||
  c.toNat = 0x3000 || c.toNat = 0xfeff

/-- Drop leading JS whitespace. -/
def trimL (l : List Char) : List Char := l.dropWhile isJsWs

/-- Drop trailing JS whitespace. -/
def trimR (l : List Char) : List Char := (l.reverse.dropWhile isJsWs).reverse

/-- Model of JavaScript `String.prototype.trim`. -/
def jsTrim (l : List Char) : List Char := trimL (trimR l)

/-- Boolean test: is `p` a leading segment of `s`?  (Models anchored matching
of a literal at one position.) -/
def isPre : List Char → List Char → Bool
  | [], _ => true
  | _ :: _, [] => false
  | c :: p, a :: s => if c = a then isPre p s else false

/-- `p` occurs somewhere inside `s` (substring). -/
def occursIn (p s : List Char) : Prop := ∃ u v, s = u ++ p ++ v

/-- Model of JavaScript `String.prototype.indexOf` for a pattern: index of the
first occurrence, `none` when the pattern does not occur (`-1` in JS). -/
def idxOf? (pat : List Char) : List Char → Option Nat
  | [] => if isPre pat [] then some 0 else none
  | a :: s => if isPre pat (a :: s) then some 0 else (idxOf? pat s).map (· + 1)

/-- Boolean form of `occursIn`. -/
def occursB (pat s : List Char) : Bool := (idxOf? pat s).isSome

theorem isPre_iff (p s : List Char) : isPre p s = true ↔ ∃ t, p ++ t = s := by
  induction p generalizing s with
  | nil => simp [isPre]
  | cons c p ih =>
    cases s with
    | nil => simp [isPre]
    | cons a s =>
      simp only [isPre]
      by_cases h : c = a
      · subst h
        rw [if_pos rfl, ih]
        constructor
        · rintro ⟨t, rfl⟩; exact ⟨t, rfl⟩
        · rintro ⟨t, ht⟩
          rw [List.cons_append, List.cons.injEq] at ht
          exact ⟨t, ht.2⟩
      · rw [if_neg h]
        constructor
        · intro hf; cases hf
        · rintro ⟨t, ht⟩
          rw [List.cons_append, List.cons.injEq] at ht
          exact absurd ht.1 h

theorem isPre_append (p t : List Char) : isPre p (p ++ t) = true := by
  rw [isPre_iff]; exact ⟨t, rfl⟩

theorem isPre_refl (p : List Char) : isPre p p = true := by
  simpa using isPre_append p []

theorem isPre_false_of_head (pat : List Char) (h c : Char) (s : List Char)
    (hh : pat.head? = some h) (hne : h ≠ c) : isPre pat (c :: s) = false := by
  cases pat with
  | nil => simp at hh
  | cons x xs =>
    simp only [List.head?_cons, Option.some.injEq] at hh
    subst hh
    simp [isPre, hne]

theorem occursIn_iff (p s : List Char) :
    occursIn p s ↔ ∃ i, isPre p (s.drop i) = true := by
  constructor
  · rintro ⟨u, v, rfl⟩
    refine ⟨u.length, ?_⟩
    rw [List.append_assoc, List.drop_left]
    exact isPre_append p v
  · rintro ⟨i, hi⟩
    rw [isPre_iff] at hi
    obtain ⟨t, ht⟩ := hi
    refine ⟨s.take i, t, ?_⟩
    conv_lhs => rw [← List.take_append_drop i s, ← ht]
    rw [List.append_assoc]

theorem occursIn_of_isPre {p s : List Char} (h : isPre p s = true) :
    occursIn p s := by
  rw [occursIn_iff]; exact ⟨0, h⟩

theorem occursIn_cons {p s : List Char} {a : Char} (h : occursIn p s) :
    occursIn p (a :: s) := by
  obtain ⟨u, v, rfl⟩ := h
  exact ⟨a :: u, v, rfl⟩

theorem idxOf?_of_isPre {pat s : List Char} (h : isPre pat s = true) :
    idxOf? pat s = some 0 := by
  cases s <;> simp [idxOf?, h]

theorem idxOf?_cons_neg {pat : List Char} {a : Char} {s : List Char}
    (h : isPre pat (a :: s) = false) :
    idxOf? pat (a :: s) = (idxOf? pat s).map (· + 1) := by
  simp [idxOf?, h]

theorem idxOf?_eq_none_iff (pat s : List Char) :
    idxOf? pat s = none ↔ ¬ occursIn pat s := by
  induction s with
  | nil =>
    simp only [idxOf?]
    constructor
    · intro h hocc
      obtain ⟨u, v, huv⟩ := hocc
      have hu : u = [] ∧ (pat ++ v) = [] := by
        constructor
        · cases u with
          | nil => rfl
          | cons a u => simp at huv
        · cases u with
          | nil => simpa using huv.symm
          | cons a u => simp at huv
      have hp : pat = [] := by
        have := hu.2
        cases pat with
        | nil => rfl
        | cons a p => simp at this
      rw [hp] at h
      simp [isPre] at h
    · intro h
      by_cases hp : isPre pat [] = true
      · exact absurd (occursIn_of_isPre hp) h
      · simp only [Bool.not_eq_true] at hp
        simp [hp]
  | cons a s ih =>
    by_cases hp : isPre pat (a :: s) = true
    · rw [idxOf?_of_isPre hp]
      constructor
      · intro h; cases h
      · intro h; exact absurd (occursIn_of_isPre hp) h
    · simp only [Bool.not_eq_true] at hp
      rw [idxOf?_cons_neg hp]
      simp only [Option.map_eq_none', ih]
      constructor
      · intro h hocc
        obtain ⟨u, v, huv⟩ := hocc
        cases u with
        | nil =>
          have : isPre pat (a :: s) = true := by
            rw [isPre_iff]; exact ⟨v, by simpa using huv.symm⟩
          rw [this] at hp; cases hp
        | cons b u =>
          apply h
          have hb : b = a ∧ s = u ++ pat ++ v := by
            have := huv
            simp only [List.cons_append, List.cons.injEq] at this
            exact ⟨this.1.symm, this.2⟩
          exact ⟨u, v, hb.2⟩
      · intro h hocc
        exact h (occursIn_cons hocc)

theorem occursB_false_iff (pat s : List Char) :
    occursB pat s = false ↔ ¬ occursIn pat s := by
  rw [← idxOf?_eq_none_iff]
  simp [occursB, Option.isSome]
  constructor
  · intro h
    cases hi : idxOf? pat s with
    | none => rfl
    | some k => rw [hi] at h; simp at h
  · intro h; simp [h]

theorem dropWhile_all {p : Char → Bool} {x : List Char}
    (h : ∀ a ∈ x, p a = true) : x.dropWhile p = [] := by
  induction x with
  | nil => rfl
  | cons a x ih =>
    rw [List.dropWhile_cons, if_pos (h a (by simp))]
    exact ih fun b hb => h b (by simp [hb])

theorem dropWhile_append_all {p : Char → Bool} {x : List Char} (y : List Char)
    (h : ∀ a ∈ x, p a = true) : (x ++ y).dropWhile p = y.dropWhile p := by
  induction x with
  | nil => rfl
  | cons a x ih =>
    rw [List.cons_append, List.dropWhile_cons, if_pos (h a (by simp))]
    exact ih fun b hb => h b (by simp [hb])

theorem dropWhile_append_pos {p : Char → Bool} {x : List Char} (y : List Char)
    (h : x.dropWhile p ≠ []) : (x ++ y).dropWhile p = x.dropWhile p ++ y := by
  induction x with
  | nil => simp [List.dropWhile] at h
  | cons a x ih =>
    by_cases hp : p a = true
    · rw [List.dropWhile_cons, if_pos hp] at h
      rw [List.cons_append, List.dropWhile_cons, if_pos hp,
        List.dropWhile_cons, if_pos hp]
      exact ih h
    · rw [Bool.not_eq_true] at hp
      rw [List.cons_append, List.dropWhile_cons, if_neg (by simp [hp]),
        List.dropWhile_cons, if_neg (by simp [hp])]
      simp

theorem dropWhile_idem {p : Char → Bool} (l : List Char) :
    (l.dropWhile p).dropWhile p = l.dropWhile p := by
  cases h : l.dropWhile p with
  | nil => rfl
  | cons c t =>
    have hc : p c = false := by
      induction l with
      | nil => simp [List.dropWhile] at h
      | cons a l ih =>
        rw [List.dropWhile_cons] at h
        by_cases hp : p a = true
        · rw [if_pos hp] at h; exact ih h
        · rw [Bool.not_eq_true] at hp
          rw [if_neg (by simp [hp])] at h
          cases h; exact hp
    rw [List.dropWhile_cons, if_neg (by simp [hc])]

theorem dropWhile_eq_nil_iff {p : Char → Bool} {l : List Char} :
    l.dropWhile p = [] ↔ ∀ a ∈ l, p a = true := by
  constructor
  · intro h a ha
    induction l with
    | nil => simp at ha
    | cons b l ih =>
      rw [List.dropWhile_cons] at h
      by_cases hp : p b = true
      · rw [if_pos hp] at h
        rcases List.mem_cons.mp ha with h1 | h2
        · subst h1; exact hp
        · exact ih h h2
      · rw [Bool.not_eq_true] at hp
        rw [if_neg (by simp [hp])] at h
        cases h
  · exact dropWhile_all

theorem trimL_nil : trimL [] = [] := rfl

theorem trimR_nil : trimR [] = [] := rfl

theorem jsTrim_nil : jsTrim [] = [] := rfl

theorem trimL_cons_ws {c : Char} (x : List Char) (h : isJsWs c = true) :
    trimL (c :: x) = trimL x := by
  simp [trimL, List.dropWhile_cons, h]

theorem trimL_cons_pos {c : Char} (x : List Char) (h : isJsWs c = false) :
    trimL (c :: x) = c :: x := by
  simp [trimL, List.dropWhile_cons, h]

theorem trimL_idem (l : List Char) : trimL (trimL l) = trimL l :=
  dropWhile_idem l

theorem trimR_append_ws {c : Char} (x : List Char) (h : isJsWs c = true) :
    trimR (x ++ [c]) = trimR x := by
  simp only [trimR, List.reverse_append, List.reverse_cons, List.reverse_nil,
    List.nil_append, List.singleton_append, List.dropWhile_cons, h, if_pos]

theorem trimR_idem (l : List Char) : trimR (trimR l) = trimR l := by
  simp only [trimR, List.reverse_reverse]
  rw [dropWhile_idem]

theorem trimR_eq_nil_iff {l : List Char} :
    trimR l = [] ↔ ∀ a ∈ l, isJsWs a = true := by
  simp only [trimR, List.reverse_eq_nil_iff, dropWhile_eq_nil_iff,
    List.mem_reverse]

theorem trimR_cons_empty {c : Char} {x : List Char} (h : trimR x = []) :
    trimR (c :: x) = if isJsWs c then [] else [c] := by
  have hall : ∀ a ∈ x.reverse, isJsWs a = true := by
    intro a ha
    exact trimR_eq_nil_iff.mp h a (List.mem_reverse.mp ha)
  simp only [trimR, List.reverse_cons]
  rw [dropWhile_append_all _ hall]
  by_cases hc : isJsWs c = true
  · simp [List.dropWhile_cons, hc]
  · rw [Bool.not_eq_true] at hc
    simp [List.dropWhile_cons, hc]

theorem trimR_cons_pos {c : Char} {x : List Char} (h : trimR x ≠ []) :
    trimR (c :: x) = c :: trimR x := by
  have hd : x.reverse.dropWhile isJsWs ≠ [] := by
    intro hnil
    exact h (by simp [trimR, hnil])
  simp only [trimR, List.reverse_cons]
  rw [dropWhile_append_pos _ hd]
  simp

theorem trimL_eq_nil_of_trimR_eq_nil {x : List Char} (h : trimR x = []) :
    trimL x = [] :=
  dropWhile_all fun a ha => trimR_eq_nil_iff.mp h a ha

theorem trimR_trimL_comm (l : List Char) : trimR (trimL l) = trimL (trimR l) := by
  induction l with
  | nil => rfl
  | cons c t ih =>
    by_cases hc : isJsWs c = true
    · rw [trimL_cons_ws t hc]
      by_cases ht : trimR t = []
      · rw [trimR_cons_empty ht, if_pos hc, ih, ht]
      · rw [trimR_cons_pos ht, trimL_cons_ws _ hc, ih]
    · rw [Bool.not_eq_true] at hc
      rw [trimL_cons_pos t hc]
      by_cases ht : trimR t = []
      · have h2 : trimR (c :: t) = [c] := by
          rw [trimR_cons_empty ht, if_neg (by simp [hc])]
        rw [h2, trimL_cons_pos [] hc]
      · rw [trimR_cons_pos ht, trimL_cons_pos _ hc]

theorem jsTrim_cons_ws {c : Char} (x : List Char) (h : isJsWs c = true) :
    jsTrim (c :: x) = jsTrim x := by
  unfold jsTrim
  by_cases ht : trimR x = []
  · rw [trimR_cons_empty ht, if_pos h, ht]
  · rw [trimR_cons_pos ht, trimL_cons_ws _ h]

theorem jsTrim_append_ws {c : Char} (x : List Char) (h : isJsWs c = true) :
    jsTrim (x ++ [c]) = jsTrim x := by
  unfold jsTrim
  rw [trimR_append_ws _ h]

theorem jsTrim_idem (l : List Char) : jsTrim (jsTrim l) = jsTrim l := by
  unfold jsTrim
  rw [trimR_trimL_comm, trimR_idem, trimL_idem]

theorem isPre_of_take {pat z : List Char} {m : Nat}
    (h : isPre pat (z.take m) = true) : isPre pat z = true := by
  rw [isPre_iff] at h ⊢
  obtain ⟨t, ht⟩ := h
  exact ⟨t ++ z.drop m, by rw [← List.append_assoc, ht, List.take_append_drop]⟩

theorem isPre_nil_false {pat : List Char} (h : pat ≠ []) :
    isPre pat [] = false := by
  cases pat with
  | nil => exact absurd rfl h
  | cons c p => rfl

theorem isPre_append_sep {pat x : List Char} {d : Char} {y : List Char}
    (hne : pat ≠ []) (h : isPre pat (x ++ d :: y) = true) :
    occursIn pat x ∨ d ∈ pat := by
  rw [isPre_iff] at h
  obtain ⟨t, ht⟩ := h
  have hpat : pat = (x ++ d :: y).take pat.length := by
    rw [← ht, List.take_append_eq_append_take, List.take_length,
      Nat.sub_self, List.take_zero, List.append_nil]
  by_cases hlen : pat.length ≤ x.length
  · left
    rw [List.take_append_eq_append_take, Nat.sub_eq_zero_of_le hlen,
      List.take_zero, List.append_nil] at hpat
    refine ⟨[], x.drop pat.length, ?_⟩
    rw [List.nil_append]
    conv_lhs => rw [← List.take_append_drop pat.length x, ← hpat]
  · right
    rw [List.take_append_eq_append_take, List.take_of_length_le (by omega)] at hpat
    have hd : (d :: y).take (pat.length - x.length) = d :: y.take (pat.length - x.length - 1) := by
      have h1 : pat.length - x.length = (pat.length - x.length - 1) + 1 := by omega
      rw [h1, List.take_succ_cons, Nat.add_sub_cancel]
    rw [hd] at hpat
    rw [hpat]
    simp

theorem idxOf?_append_sep (pat x : List Char) (d : Char) (y : List Char)
    (hne : pat ≠ []) (hd : d ∉ pat) (hx : ¬ occursIn pat x) :
    idxOf? pat (x ++ d :: y) = (idxOf? pat y).map (fun i => x.length + 1 + i) := by
  induction x with
  | nil =>
    have hp : isPre pat (d :: y) = false := by
      by_cases h : isPre pat (d :: y) = true
      · rcases isPre_append_sep (x := []) hne (by simpa using h) with h1 | h2
        · obtain ⟨u, v, huv⟩ := h1
          cases u <;> simp at huv
          exact absurd huv.1 hne
        · exact absurd h2 hd
      · simpa using h
    rw [List.nil_append, idxOf?_cons_neg hp]
    cases idxOf? pat y <;> simp [Nat.add_comm]
  | cons a x ih =>
    have hx' : ¬ occursIn pat x := fun h => hx (occursIn_cons h)
    have hp : isPre pat (a :: (x ++ d :: y)) = false := by
      by_cases h : isPre pat (a :: (x ++ d :: y)) = true
      · rcases isPre_append_sep (x := a :: x) hne (by simpa using h) with h1 | h2
        · exact absurd h1 hx
        · exact absurd h2 hd
      · simpa using h
    rw [List.cons_append, idxOf?_cons_neg hp, ih hx']
    cases idxOf? pat y
    · simp
    · simp
      omega

theorem not_occursIn_append_sep {pat x : List Char} {d : Char} {y : List Char}
    (hne : pat ≠ []) (hd : d ∉ pat) (hx : ¬ occursIn pat x)
    (hy : ¬ occursIn pat y) : ¬ occursIn pat (x ++ d :: y) := by
  rw [← idxOf?_eq_none_iff] at hy ⊢
  rw [idxOf?_append_sep pat x d y hne hd hx, hy]
  rfl

theorem idxOf?_eq_some {pat s : List Char} {i : Nat}
    (h : idxOf? pat s = some i) :
    isPre pat (s.drop i) = true ∧ ∀ j < i, isPre pat (s.drop j) = false := by
  induction s generalizing i with
  | nil =>
    simp only [idxOf?] at h
    by_cases hp : isPre pat [] = true
    · rw [if_pos hp] at h
      cases h
      exact ⟨hp, by omega⟩
    · rw [if_neg hp] at h
      cases h
  | cons a s ih =>
    by_cases hp : isPre pat (a :: s) = true
    · rw [idxOf?_of_isPre hp] at h
      cases h
      exact ⟨hp, by omega⟩
    · rw [Bool.not_eq_true] at hp
      rw [idxOf?_cons_neg hp] at h
      cases hk : idxOf? pat s with
      | none => rw [hk] at h; cases h
      | some k =>
        rw [hk] at h
        simp only [Option.map_some', Option.some.injEq] at h
        subst h
        obtain ⟨h1, h2⟩ := ih hk
        refine ⟨by simpa using h1, ?_⟩
        intro j hj
        cases j with
        | zero => simpa using hp
        | succ j => simpa using h2 j (by omega)

theorem not_occursIn_take {pat b : List Char} {k m : Nat}
    (hk : idxOf? pat b = some k) (hne : pat ≠ []) (hm : m ≤ k) :
    ¬ occursIn pat (b.take m) := by
  rw [occursIn_iff]
  rintro ⟨i, hi⟩
  by_cases him : i < m
  · rw [List.drop_take] at hi
    have h2 := isPre_of_take hi
    have := (idxOf?_eq_some hk).2 i (by omega)
    rw [this] at h2
    cases h2
  · rw [List.drop_eq_nil_of_le (le_trans (List.length_take_le m b) (by omega))] at hi
    rw [isPre_nil_false hne] at hi
    cases hi

theorem occursIn_of_occursIn_jsTrim {pat x : List Char}
    (h : occursIn pat (jsTrim x)) : occursIn pat x := by
  obtain ⟨u, v, huv⟩ := h
  have h1 : ∃ w, w ++ jsTrim x = trimR x := by
    refine ⟨(trimR x).takeWhile isJsWs, ?_⟩
    exact List.takeWhile_append_dropWhile isJsWs (trimR x)
  have h2 : ∃ w, trimR x ++ w = x := by
    refine ⟨(x.reverse.takeWhile isJsWs).reverse, ?_⟩
    rw [trimR, ← List.reverse_append, List.takeWhile_append_dropWhile,
      List.reverse_reverse]
  obtain ⟨w1, hw1⟩ := h1
  obtain ⟨w2, hw2⟩ := h2
  refine ⟨w1 ++ u, v ++ w2, ?_⟩
  rw [← hw2, ← hw1, huv]
  simp [List.append_assoc]

/-! ### Decimal rendering and parsing of issue numbers

`toDec` models the JavaScript number-to-string conversion used by template
literals such as `` `todo/${issue.number}-${slug}` `` for a nonnegative
integer; `parseDigits` models `parseInt(digits, 10)` on an all-digit string.
`toDecGo` uses explicit fuel so that it is structurally recursive (the fuel
is always larger than the number of digits). -/

def digitChar : Nat → Char
  | 0 => '0' | 1 => '1' | 2 => '2' | 3 => '3' | 4 => '4'
  | 5 => '5' | 6 => '6' | 7 => '7' | 8 => '8' | 9 => '9'
  | _ => '*'

def digitVal (c : Char) : Nat := c.toNat - 48

def toDecGo : Nat → Nat → List Char
  | 0, _ => []
  | fuel + 1, n =>
    if n < 10 then [digitChar n]
    else toDecGo fuel (n / 10) ++ [digitChar (n % 10)]

/-- Decimal representation of a natural number (most significant digit
first), modelling JS number-to-string conversion. -/
def toDec (n : Nat) : List Char := toDecGo (n + 1) n

def parseDigits (l : List Char) : Nat :=
  l.foldl (fun acc c => 10 * acc + digitVal c) 0

theorem toDecGo_fuel {fuel₁ : Nat} : ∀ {fuel₂ n : Nat}, n < fuel₁ → n < fuel₂ →
    toDecGo fuel₁ n = toDecGo fuel₂ n := by
  induction fuel₁ with
  | zero => intro fuel₂ n h1 _; omega
  | succ f ih =>
    intro fuel₂ n h1 h2
    cases fuel₂ with
    | zero => omega
    | succ f2 =>
      simp only [toDecGo]
      by_cases hn : n < 10
      · rw [if_pos hn, if_pos hn]
      · have hdiv : n / 10 < n := Nat.div_lt_self (by omega) (by omega)
        have hf : n / 10 < f := by omega
        have hf2 : n / 10 < f2 := by omega
        rw [if_neg hn, if_neg hn, ih hf hf2]

theorem toDec_eq (n : Nat) :
    toDec n = if n < 10 then [digitChar n] else toDec (n / 10) ++ [digitChar (n % 10)] := by
  show toDecGo (n + 1) n = _
  simp only [toDecGo]
  by_cases hn : n < 10
  · rw [if_pos hn, if_pos hn]
  · rw [if_neg hn, if_neg hn,
      toDecGo_fuel (Nat.div_lt_self (by omega) (by omega))
        (by omega : n / 10 < n / 10 + 1)]
    rfl

theorem digitVal_digitChar {n : Nat} (h : n < 10) :
    digitVal (digitChar n) = n := by
  interval_cases n <;> decide

theorem digitChar_isDigit {n : Nat} (h : n < 10) :
    (digitChar n).isDigit = true := by
  interval_cases n <;> decide

theorem parseDigits_append_one (x : List Char) (c : Char) :
    parseDigits (x ++ [c]) = 10 * parseDigits x + digitVal c := by
  simp [parseDigits, List.foldl_append]

theorem parseDigits_toDec (n : Nat) : parseDigits (toDec n) = n := by
  induction n using Nat.strong_induction_on with
  | _ n ih =>
    rw [toDec_eq]
    by_cases hn : n < 10
    · rw [if_pos hn]
      show 10 * 0 + digitVal (digitChar n) = n
      rw [digitVal_digitChar hn]
      omega
    · rw [if_neg hn, parseDigits_append_one, ih (n / 10) (by omega),
        digitVal_digitChar (by omega)]
      omega

theorem toDec_all_digits (n : Nat) : ∀ c ∈ toDec n, c.isDigit = true := by
  induction n using Nat.strong_induction_on with
  | _ n ih =>
    rw [toDec_eq]
    by_cases hn : n < 10
    · rw [if_pos hn]
      intro c hc
      rw [List.mem_singleton] at hc
      subst hc
      exact digitChar_isDigit hn
    · rw [if_neg hn]
      intro c hc
      rcases List.mem_append.mp hc with h1 | h2
      · exact ih (n / 10) (by omega) c h1
      · rw [List.mem_singleton] at h2
        subst h2
        exact digitChar_isDigit (by omega)

theorem toDec_ne_nil (n : Nat) : toDec n ≠ [] := by
  rw [toDec_eq]
  by_cases hn : n < 10
  · rw [if_pos hn]; simp
  · rw [if_neg hn]; simp

/-! ### Section codec (`src/extensions/gh-todo/utils.ts` and `types.ts`) -/

def PI_SECTION_START : List Char := "<!-- pi-agent-notes-start -->".data

def PI_SECTION_END : List Char := "<!-- pi-agent-notes-end -->".data

def PI_SECTION_TITLE : List Char := "Pi Agent Notes".data

def nl2 : List Char := "\n\n".data

/-- Model of the JS idiom `parts.filter(p => p.length > 0).join("\n\n")`:
drop the empty parts and join the rest with a blank-line separator. -/
def joinParts : List (List Char) → List Char
  | [] => []
  | p :: ps =>
    let rest := joinParts ps
    if p = [] then rest
    else if rest = [] then p else p ++ nl2 ++ rest

/-- `wrapInCollapsible` from `utils.ts`: wrap trimmed content in the marker
pair and a collapsible details block, or return the empty string for
whitespace-only content. -/
def wrapInCollapsible (content : List Char) : List Char :=
  if jsTrim content = [] then []
  else
    PI_SECTION_START ++ "\n<details>\n<summary>".data ++ PI_SECTION_TITLE ++
      "</summary>\n\n".data ++ jsTrim content ++ "\n\n</details>\n".data ++
      PI_SECTION_END

/-- One matching attempt of the tail `[^<]*<\/summary>([\s\S]*?)<\/details>`
of the details regex in `extractPiSection`, starting right after a matched
`<summary>`: the greedy `[^<]*` is forced to the maximal run of non-`<`
characters, then the literal `</summary>` must follow, and the lazy capture
extends to the first `</details>`. -/
def afterSummary (u : List Char) : Option (List Char) :=
  let k := (u.takeWhile (fun c => !(c = '<'))).length
  if isPre "</summary>".data (u.drop k) then
    let v := u.drop (k + 10)
    match idxOf? "</details>".data v with
    | some m => some (v.take m)
    | none => none
  else none

/-- The lazy `[\s\S]*?<summary>` part: try each position left to right for a
`<summary>` whose continuation matches, mirroring regex backtracking. -/
def scanSummary : List Char → Option (List Char)
  | [] => none
  | c :: t =>
    match (if isPre "<summary>".data (c :: t) then afterSummary ((c :: t).drop 9) else none) with
    | some r => some r
    | none => scanSummary t

/-- Model of `section.match(/<details>[\s\S]*?<summary>[^<]*<\/summary>([\s\S]*?)<\/details>/)`,
returning the first capture group of the leftmost match. -/
def detailsMatch? : List Char → Option (List Char)
  | [] => none
  | c :: t =>
    match (if isPre "<details>".data (c :: t) then scanSummary ((c :: t).drop 9) else none) with
    | some r => some r
    | none => detailsMatch? t

/-- `extractPiSection` from `utils.ts`. -/
def extractPiSection (body : List Char) : Option (List Char) :=
  match idxOf? PI_SECTION_START body, idxOf? PI_SECTION_END body with
  | some s, some e =>
    if e ≤ s then none
    else
      match detailsMatch? ((body.take e).drop (s + PI_SECTION_START.length)) with
      | some cap => some (jsTrim cap)
      | none => none
  | _, _ => none

/-- `extractUserContent` from `utils.ts`. -/
def extractUserContent (body : List Char) : List Char :=
  match idxOf? PI_SECTION_START body, idxOf? PI_SECTION_END body with
  | some s, some e =>
    if e ≤ s then jsTrim body
    else
      joinParts [jsTrim (body.take s),
        jsTrim (body.drop (e + PI_SECTION_END.length))]
  | _, _ => jsTrim body

/-- The append branch of `updatePiSection` (no valid existing section). -/
def updAppend (body wrapped : List Char) : List Char :=
  if jsTrim body = [] then wrapped else jsTrim body ++ nl2 ++ wrapped

/-- `updatePiSection` from `utils.ts`. -/
def updatePiSection (body newContent : List Char) : List Char :=
  let wrapped := wrapInCollapsible newContent
  match idxOf? PI_SECTION_START body, idxOf? PI_SECTION_END body with
  | some s, some e =>
    if e ≤ s then updAppend body wrapped
    else
      joinParts [jsTrim (body.take s), wrapped,
        jsTrim (body.drop (e + PI_SECTION_END.length))]
  | _, _ => updAppend body wrapped

/-! ### Naming conventions (`src/extensions/gh-todo/utils.ts`) -/

/-- `getIssueSessionName`: the template literal `#${number}: ${title}`. -/
def getIssueSessionName (number : Nat) (title : List Char) : List Char :=
  '#' :: toDec number ++ ": ".data ++ title

/-- `getIssueSessionPrefix`: the template literal `#${issueNumber}: `. -/
def getIssueSessionPrefix (issueNumber : Nat) : List Char :=
  '#' :: toDec issueNumber ++ ": ".data

/-- `sessionMatchesIssue`: `undefined` (and, via the falsy check, the empty
string) gives `false`; otherwise `startsWith` on the prefix. -/
def sessionMatchesIssue (sessionName : Option (List Char)) (issueNumber : Nat) : Bool :=
  match sessionName with
  | none => false
  | some s => isPre (getIssueSessionPrefix issueNumber) s

/-- `extractIssueNumberFromSession`: the anchored regex `^#(\d+):` with a
greedy digit group; a match needs a leading `#`, a nonempty maximal digit
run, and a `:` right after it. -/
def extractIssueNumberFromSession (sessionName : Option (List Char)) : Option Nat :=
  match sessionName with
  | none => none
  | some ('#' :: rest) =>
    let digits := rest.takeWhile Char.isDigit
    if digits = [] then none
    else
      match (rest.drop digits.length).head? with
      | some ':' => some (parseDigits digits)
      | _ => none
  | some _ => none

/-- `extractIssueNumberFromBranch`: the anchored regex `^todo\/(\d+)-`. -/
def extractIssueNumberFromBranch (branchName : List Char) : Option Nat :=
  if isPre "todo/".data branchName then
    let rest := branchName.drop 5
    let digits := rest.takeWhile Char.isDigit
    if digits = [] then none
    else
      match (rest.drop digits.length).head? with
      | some '-' => some (parseDigits digits)
      | _ => none
  else none

/-- `isMainBranch`. -/
def isMainBranch (branchName : List Char) : Bool :=
  branchName = "main".data || branchName = "master".data

/-- The character class `[a-z0-9]` of the slug regexes. -/
def isSlugChar (c : Char) : Bool :=
  (97 ≤ c.toNat && c.toNat ≤ 122) || (48 ≤ c.toNat && c.toNat ≤ 57)

/-- Model of `.replace(/[^a-z0-9]+/g, "-")` as a left-to-right scan: the
flag records whether the scanner is inside a run of excluded characters
(for which a single `-` has already been emitted). -/
def collapseAux : Bool → List Char → List Char
  | _, [] => []
  | inRun, c :: rest =>
    if isSlugChar c then c :: collapseAux false rest
    else if inRun then collapseAux true rest
    else '-' :: collapseAux true rest

/-- Model of replacing the trailing dash run `-+$` with the empty string. -/
def dropDashEnd (l : List Char) : List Char :=
  (l.reverse.dropWhile (fun c => c = '-')).reverse

/-- Model of replacing `^-+|-+$` (leading and trailing dash runs) with the empty string. -/
def stripDashEnds (l : List Char) : List Char :=
  dropDashEnd (l.dropWhile (fun c => c = '-'))

/-- `getIssueBranchName` from `utils.ts`: lowercase (modelled per code unit,
which yields the same slug because every non-ASCII character is collapsed to
`-` either way), collapse non-`[a-z0-9]` runs, strip leading/trailing `-`,
truncate to 50, strip trailing `-` again, prefix with `todo/{number}-`. -/
def getIssueBranchName (number : Nat) (title : List Char) : List Char :=
  let slug :=
    dropDashEnd ((stripDashEnds (collapseAux false (title.map Char.toLower))).take 50)
  "todo/".data ++ toDec number ++ '-' :: slug

/-- The claim-side reading of the slug algorithm, with run collapsing
written as a direct recursion on maximal runs (`C3`). -/
def collapseRunsSpec : List Char → List Char
  | [] => []
  | c :: rest =>
    if isSlugChar c then c :: collapseRunsSpec rest
    else '-' :: collapseRunsSpec (rest.dropWhile (fun a => !isSlugChar a))
termination_by l => l.length
decreasing_by
  · simp
  · simp only [List.length_cons]
    exact Nat.lt_succ_of_le (List.dropWhile_sublist _).length_le

/-- Branch-name computation as described by claim C3, built on
`collapseRunsSpec`. -/
def claimBranchName (number : Nat) (title : List Char) : List Char :=
  let slug :=
    dropDashEnd ((stripDashEnds (collapseRunsSpec (title.map Char.toLower))).take 50)
  "todo/".data ++ toDec number ++ '-' :: slug

theorem collapseRunsSpec_nil : collapseRunsSpec [] = [] := by
  rw [collapseRunsSpec]

theorem collapseRunsSpec_cons (c : Char) (rest : List Char) :
    collapseRunsSpec (c :: rest) =
      if isSlugChar c then c :: collapseRunsSpec rest
      else '-' :: collapseRunsSpec (rest.dropWhile (fun a => !isSlugChar a)) := by
  rw [collapseRunsSpec]

theorem collapseAux_eq_spec (l : List Char) :
    collapseAux false l = collapseRunsSpec l ∧
    collapseAux true l = collapseRunsSpec (l.dropWhile (fun a => !isSlugChar a)) := by
  induction l with
  | nil =>
    constructor
    · rw [collapseRunsSpec_nil]; rfl
    · show collapseAux true [] = collapseRunsSpec []
      rw [collapseRunsSpec_nil]; rfl
  | cons c rest ih =>
    by_cases hc : isSlugChar c = true
    · have hA : ∀ b, collapseAux b (c :: rest) = c :: collapseAux false rest := by
        intro b
        simp only [collapseAux, if_pos hc]
      constructor
      · rw [hA, collapseRunsSpec_cons, if_pos hc, ih.1]
      · rw [hA, List.dropWhile_cons, if_neg (by simp [hc]), collapseRunsSpec_cons,
          if_pos hc, ih.1]
    · rw [Bool.not_eq_true] at hc
      have hF : collapseAux false (c :: rest) = '-' :: collapseAux true rest := by
        simp [collapseAux, hc]
      have hT : collapseAux true (c :: rest) = collapseAux true rest := by
        simp [collapseAux, hc]
      constructor
      · rw [hF, collapseRunsSpec_cons, if_neg (by simp [hc]), ih.2]
      · rw [hT, List.dropWhile_cons, if_pos (by simp [hc]), ih.2]

/-! ### Session entries, checkpoint labels (`utils.ts`) and the context
gatherer (`pr.ts`)

The host `sessionManager` is modelled by the list of entries of the current
branch (chronological order) paired with their ids, plus the label lookup
`getLabel`.  Message payloads carry exactly the fields the gatherer reads. -/

/-- A content block of a user/assistant message: only `text` blocks
contribute to the gathered context. -/
inductive Block
  | text (t : List Char)
  | other
deriving DecidableEq

/-- `msg.content` is either an array of blocks or a plain string. -/
inductive MsgContent
  | blocks (bs : List Block)
  | str (s : List Char)
deriving DecidableEq

/-- The message shapes distinguished by the gatherer. -/
inductive Msg
  | user (content : MsgContent)
  | assistant (content : MsgContent)
  | toolResult (toolName : List Char) (isError : Bool)
      (path : Option (List Char)) (command : Option (List Char))
  | otherRole
deriving DecidableEq

/-- A session entry: only `message` entries are rendered. -/
inductive SessionEntry
  | message (m : Msg)
  | other
deriving DecidableEq

/-- The session-manager state visible to `findLastPrCheckpointEntryId`,
`getEntriesAfter` and the gatherers: the current branch (entry id paired
with the entry) and the label map. -/
structure Ctx where
  branch : List (List Char × SessionEntry)
  getLabel : List Char → Option (List Char)

def PR_LABEL_CREATED : List Char := "pr-created".data

def PR_LABEL_UPDATED : List Char := "pr-update".data

/-- The label test of the loop body in `findLastPrCheckpointEntryId`. -/
def isCheckpointLabel (label : Option (List Char)) : Bool :=
  label = some PR_LABEL_CREATED || label = some PR_LABEL_UPDATED

/-- `findLastPrCheckpointEntryId` from `utils.ts`: scan the branch from the
newest entry backwards and return the id of the first entry whose label is
`pr-created` or `pr-update`. -/
def findLastPrCheckpointEntryId (ctx : Ctx) : Option (List Char) :=
  (ctx.branch.reverse.find? fun p => isCheckpointLabel (ctx.getLabel p.1)).map
    Prod.fst

/-- `getEntriesAfter` from `utils.ts`.  A falsy id (`null` or the empty
string) selects the whole branch; an id not present in the branch also
selects the whole branch. -/
def getEntriesAfter (ctx : Ctx) (afterEntryId : Option (List Char)) :
    List (List Char × SessionEntry) :=
  match afterEntryId with
  | none => ctx.branch
  | some id =>
    if id = [] then ctx.branch
    else
      match ctx.branch.findIdx? (fun p => p.1 = id) with
      | none => ctx.branch
      | some idx => ctx.branch.drop (idx + 1)

/-- The text of a block array: `content.map(c => c.type === "text" ? c.text : "").join("")`. -/
def blocksText (bs : List Block) : List Char :=
  (bs.map fun b => match b with | .text t => t | .other => []).join

/-- Normalization used by `gatherSessionContext`:
`Array.isArray(msg.content) ? msg.content : [{type: "text", text: msg.content}]`. -/
def normContent : MsgContent → List Block
  | .blocks bs => bs
  | .str s => [.text s]

/-- The piece of context contributed by one entry in `gatherSessionContext`
(empty for entries the gatherer ignores). -/
def renderEntry (e : SessionEntry) : List Char :=
  match e with
  | .message m =>
    match m with
    | .user content =>
      let text := blocksText (normContent content)
      if text = [] then [] else "User: ".data ++ text.take 500 ++ nl2
    | .assistant content =>
      let text := blocksText (normContent content)
      if text = [] then [] else "Assistant: ".data ++ text.take 500 ++ nl2
    | .toolResult toolName isError path command =>
      if isError then []
      else if toolName = "write".data ∨ toolName = "edit".data then
        match path with
        | some p => if p = [] then [] else "Tool: ".data ++ toolName ++ ' ' :: p ++ nl2
        | none => []
      else if toolName = "bash".data then
        match command with
        | some cmd =>
          if cmd = [] then []
          else "Tool: bash `".data ++ cmd.take 100 ++ '`' :: nl2
        | none => []
      else []
    | .otherRole => []
  | .other => []

/-- `gatherSessionContext` from `pr.ts`: accumulate the rendered entries in
chronological order, then cap the result at 8000 characters. -/
def gatherSessionContext (entries : List SessionEntry) : List Char :=
  (entries.foldl (fun acc e => acc ++ renderEntry e) []).take 8000

/-- The per-entry rendering of `gatherScopedSessionContext`.  Unlike
`renderEntry` it calls `.map` on `msg.content` without an array check, so a
plain-string content raises a `TypeError` (modelled as `none`), which the
surrounding `try` turns into stopping with the context gathered so far. -/
def renderScoped? (e : SessionEntry) : Option (List Char) :=
  match e with
  | .message m =>
    match m with
    | .user content =>
      match content with
      | .str _ => none
      | .blocks bs =>
        let text := blocksText bs
        some (if text = [] then [] else "User: ".data ++ text.take 500 ++ nl2)
    | .assistant content =>
      match content with
      | .str _ => none
      | .blocks bs =>
        let text := blocksText bs
        some (if text = [] then [] else "Assistant: ".data ++ text.take 500 ++ nl2)
    | .toolResult toolName isError path command =>
      some (renderEntry (.message (.toolResult toolName isError path command)))
    | .otherRole => some []
  | .other => some []

/-- The scoped gathering loop: on an exception the context accumulated so
far is kept (the `try` block ends and the function returns the slice). -/
def gatherScopedGo : List SessionEntry → List Char → List Char
  | [], acc => acc
  | e :: es, acc =>
    match renderScoped? e with
    | some piece => gatherScopedGo es (acc ++ piece)
    | none => acc

/-- `gatherScopedSessionContext` from `pr.ts`. -/
def gatherScopedSessionContext (ctx : Ctx) : List Char :=
  (gatherScopedGo
    ((getEntriesAfter ctx (findLastPrCheckpointEntryId ctx)).map Prod.snd)
    []).take 8000

/-! ### CLI JSON parsing (`parseIssues` / `parseIssue`, `utils.ts`)

`JSON.parse` is an external runtime service: its outcome is modelled as an
`Option Json` input (`none` = the parse threw).  The element conversion of
`parseIssues`/`parseIssue` is transcribed with JavaScript property-access,
truthiness and exception semantics (`Except Unit` models a thrown
`TypeError`, caught by the surrounding `try`). -/

inductive Json
  | null
  | bool (b : Bool)
  | num (n : Int)
  | str (s : List Char)
  | arr (elems : List Json)
  | obj (fields : List (List Char × Json))

/-- A JavaScript value read off a property: a JSON value or `undefined`. -/
inductive JsVal
  | undefinedV
  | json (j : Json)

/-- JavaScript property access `v[key]` for the issue fields: throws on
`null`, reads the last binding of an object (`JSON.parse` keeps the last
duplicate key), and gives `undefined` on every other value (none of the
accessed field names is a built-in property). -/
def jsGet (j : Json) (key : List Char) : Except Unit JsVal :=
  match j with
  | .null => .error ()
  | .obj fields =>
    match fields.reverse.find? (fun kv => kv.1 = key) with
    | some kv => .ok (.json kv.2)
    | none => .ok .undefinedV
  | _ => .ok .undefinedV

/-- JavaScript truthiness of a property value. -/
def truthy (v : JsVal) : Bool :=
  match v with
  | .undefinedV => false
  | .json .null => false
  | .json (.bool b) => b
  | .json (.num n) => n ≠ 0
  | .json (.str s) => s ≠ []
  | .json (.arr _) => true
  | .json (.obj _) => true

/-- `v || ""` (used for `body`, `url`, `createdAt`, `updatedAt`). -/
def jsOrEmptyStr (v : JsVal) : JsVal :=
  if truthy v then v else .json (.str [])

/-- `issue.state?.toLowerCase() === "closed" ? "closed" : "open"`:
`undefined`/`null` short-circuit to `undefined` (hence `"open"`), a string
is lowercased and compared, and `.toLowerCase()` on any other value throws. -/
def stateOf (v : JsVal) : Except Unit (List Char) :=
  match v with
  | .undefinedV => .ok "open".data
  | .json .null => .ok "open".data
  | .json (.str s) =>
    .ok (if s.map Char.toLower = "closed".data then "closed".data else "open".data)
  | .json _ => .error ()

/-- One element of `(issue.labels || []).map(l => typeof l === "string" ? l : l.name)`:
strings pass through, `null` throws on `.name`, objects give their `name`
property, and everything else gives `undefined`. -/
def labelElem (key : List Char) (x : Json) : Except Unit JsVal :=
  match x with
  | .str s => .ok (.json (.str s))
  | .null => .error ()
  | .obj fields =>
    match fields.reverse.find? (fun kv => kv.1 = key) with
    | some kv => .ok (.json kv.2)
    | none => .ok .undefinedV
  | _ => .ok .undefinedV

/-- `(v || []).map(elem)`: a falsy value is replaced by `[]`, `.map` on a
non-array throws, and the first throwing element aborts the map. -/
def mapArray (key : List Char) (v : JsVal) : Except Unit (List JsVal) :=
  let base := if truthy v then v else .json (.arr [])
  match base with
  | .json (.arr xs) => go xs
  | _ => .error ()
where
  go : List Json → Except Unit (List JsVal)
    | [] => .ok []
    | x :: xs =>
      match labelElem key x with
      | .error e => .error e
      | .ok y =>
        match go xs with
        | .error e => .error e
        | .ok ys => .ok (y :: ys)

/-- The issue record built by `parseIssues`/`parseIssue` (`GhIssue` of
`types.ts`, with the runtime values actually stored). -/
structure GhIssue where
  number : JsVal
  title : JsVal
  state : List Char
  body : JsVal
  labels : List JsVal
  assignees : List JsVal
  url : JsVal
  createdAt : JsVal
  updatedAt : JsVal

/-- The object-literal conversion shared by `parseIssues` and `parseIssue`,
with properties evaluated in source order and the first thrown `TypeError`
aborting the conversion. -/
def convertIssue (j : Json) : Except Unit GhIssue := do
  let number ← jsGet j "number".data
  let title ← jsGet j "title".data
  let stateV ← jsGet j "state".data
  let state ← stateOf stateV
  let bodyV ← jsGet j "body".data
  let body := jsOrEmptyStr bodyV
  let labelsV ← jsGet j "labels".data
  let labels ← mapArray "name".data labelsV
  let assigneesV ← jsGet j "assignees".data
  let assignees ← mapArray "login".data assigneesV
  let urlV ← jsGet j "url".data
  let createdV ← jsGet j "createdAt".data
  let updatedV ← jsGet j "updatedAt".data
  return { number := number, title := title, state := state, body := body,
           labels := labels, assignees := assignees,
           url := jsOrEmptyStr urlV, createdAt := jsOrEmptyStr createdV,
           updatedAt := jsOrEmptyStr updatedV }

/-- `raw.map(convert)` with exception propagation. -/
def convertAll : List Json → Except Unit (List GhIssue)
  | [] => .ok []
  | x :: xs =>
    match convertIssue x with
    | .error e => .error e
    | .ok y =>
      match convertAll xs with
      | .error e => .error e
      | .ok ys => .ok (y :: ys)

/-- `parseIssues` from `utils.ts`, over the outcome of `JSON.parse`:
a parse failure, a non-array value, or a thrown conversion all yield `[]`. -/
def parseIssues (parsed : Option Json) : List GhIssue :=
  match parsed with
  | none => []
  | some j =>
    match j with
    | .arr xs =>
      match convertAll xs with
      | .ok issues => issues
      | .error _ => []
    | _ => []

/-- `parseIssue` from `utils.ts`, over the outcome of `JSON.parse`: `null`
on a parse failure or a thrown conversion. -/
def parseIssue (parsed : Option Json) : Option GhIssue :=
  match parsed with
  | none => none
  | some j =>
    match convertIssue j with
    | .ok issue => some issue
    | .error _ => none

/-! ### The `gh_todo` tool, action `pr` (`tool.ts`)

The asynchronous environment is reified: every awaited gateway/LLM call is a
field of `PrEnv` carrying its outcome (`Except` for calls that can throw),
and `aborted i` is the value of the i-th `signal?.aborted` read on the
executed path.  `abortedCatch` is the extra read performed inside the outer
`catch` block. -/

/-- The single-quote character (used inside source error texts). -/
def SQ : Char := '\x27'

/-- The typed view of an issue used by the tool layer (`GhIssue` of
`types.ts` as annotated: `state` is `"open"` or `"closed"`). -/
structure TIssue where
  number : Nat
  title : List Char
  state : List Char

/-- The slice of a tool result relevant here: the text content, the
`details.error` field, and the error flag. -/
structure ToolResult where
  text : List Char
  detailsError : Option (List Char)
  isError : Bool

/-- The environment of one invocation of the tool with `action: "pr"`. -/
structure PrEnv where
  ghCliOk : Bool
  aborted : Nat → Bool
  abortedCatch : Bool
  currentBranch : Except (List Char) (List Char)
  sessionName : Option (List Char)
  paramNumber : Option Nat
  paramClose : Option Bool
  issueFor : Nat → Except (List Char) TIssue
  uncommitted : Except (List Char) Bool
  upstream : Except (List Char) Bool
  pushResult : Except (List Char) Unit
  sctx : Ctx
  template : Option (List Char)
  fillTemplateResult : List Char → List Char → Bool → List Char
  genSummaryResult : List Char → Bool → List Char
  createPr : List Char → List Char → Except (List Char) (List Char × Nat)

/-- The outer `catch` block of `execute`: re-check the signal, else report
`Error: {message}` with `details.error` set to the message. -/
def catchResult (env : PrEnv) (msg : List Char) : ToolResult :=
  if env.abortedCatch then
    ⟨"Cancelled".data, some "Cancelled".data, false⟩
  else
    ⟨"Error: ".data ++ msg, some msg, true⟩

/-- A mid-action cancellation result (no `error` field in `details`). -/
def cancelledResult : ToolResult := ⟨"Cancelled".data, none, false⟩

/-- One invocation of the `gh_todo` tool with `action: "pr"` (the
`checkGhCli` prelude, the pre-`try` signal check, and the `case "pr"`
branch of `tool.ts`), paired with whether `createPr` was invoked. -/
def ghTodoPrAction (env : PrEnv) : ToolResult × Bool :=
  if !env.ghCliOk then
    (⟨("Error: GitHub CLI (gh) is not installed or not in PATH. " ++
       "Install it with: brew install gh").data,
      some "gh CLI not found".data, true⟩, false)
  else if env.aborted 0 then
    (⟨"Cancelled".data, some "Cancelled".data, false⟩, false)
  else
    match env.currentBranch with
    | .error msg => (catchResult env msg, false)
    | .ok currentBranch =>
      if env.aborted 1 then (cancelledResult, false)
      else if isMainBranch currentBranch then
        (⟨("Error: Cannot create PR from main/master branch. " ++
           "Create a feature branch first.").data,
          some "on main branch".data, true⟩, false)
      else
        let sessionIssueNum := extractIssueNumberFromSession env.sessionName
        let branchIssueNum := extractIssueNumberFromBranch currentBranch
        let mismatch :=
          match branchIssueNum, sessionIssueNum with
          | some b, some sn => if b ≠ sn then some (b, sn) else none
          | _, _ => none
        match mismatch with
        | some (b, sn) =>
          (⟨"Error: Branch todo/".data ++ toDec b ++
              ("-* doesn" ++ String.singleton SQ ++
               "t match session issue #").data ++ toDec sn ++
              ". Session and branch should be for the same issue.".data,
            some "branch/session mismatch".data, true⟩, false)
        | none =>
          let issueNumber :=
            (env.paramNumber.orElse fun _ =>
              (sessionIssueNum.orElse fun _ => branchIssueNum))
          if issueNumber = none ∨ issueNumber = some 0 then
            (⟨("Error: Could not determine issue number. Either pass " ++
               String.singleton SQ ++ "number" ++ String.singleton SQ ++
               " parameter, use a session named " ++ String.singleton SQ ++
               "#N: Title" ++ String.singleton SQ ++ ", or be on a " ++
               String.singleton SQ ++ "todo/N-*" ++ String.singleton SQ ++
               " branch.").data,
              some "no issue number".data, true⟩, false)
          else
            match issueNumber with
            | none => (cancelledResult, false)
            | some n =>
              match env.issueFor n with
              | .error msg => (catchResult env msg, false)
              | .ok issue =>
                if env.aborted 2 then (cancelledResult, false)
                else if issue.state = "closed".data then
                  (⟨"Error: Issue #".data ++ toDec n ++
                      " is already closed.".data,
                    some "issue closed".data, true⟩, false)
                else
                  match env.uncommitted with
                  | .error msg => (catchResult env msg, false)
                  | .ok true =>
                    (⟨("Error: You have uncommitted changes. " ++
                       "Commit or stash them before creating a PR.").data,
                      some "uncommitted changes".data, true⟩, false)
                  | .ok false =>
                    if env.aborted 3 then (cancelledResult, false)
                    else
                      match env.upstream with
                      | .error msg => (catchResult env msg, false)
                      | .ok hasUp =>
                        match (if hasUp then Except.ok () else env.pushResult) with
                        | .error msg => (catchResult env msg, false)
                        | .ok _ =>
                          if env.aborted 4 then (cancelledResult, false)
                          else
                            let sessionContext :=
                              gatherSessionContext (env.sctx.branch.map Prod.snd)
                            let shouldClose := env.paramClose = some true
                            if env.aborted 5 then (cancelledResult, false)
                            else
                              let prBody :=
                                match env.template with
                                | some t =>
                                  env.fillTemplateResult t sessionContext shouldClose
                                | none =>
                                  env.genSummaryResult sessionContext shouldClose
                              if env.aborted 6 then (cancelledResult, false)
                              else
                                let prTitle := issue.title ++ " (#".data ++
                                  toDec issue.number ++ ")".data
                                match env.createPr prTitle prBody with
                                | .error msg => (catchResult env msg, true)
                                | .ok (url, prNum) =>
                                  (⟨"Created PR #".data ++ toDec prNum ++
                                      " for issue #".data ++ toDec n ++
                                      '\n' :: url,
                                    none, false⟩, true)

/-! ### Helper lemmas for the claim theorems -/

theorem takeWhile_append_stop {p : Char → Bool} {x : List Char} {d : Char}
    (z : List Char) (hx : ∀ a ∈ x, p a = true) (hd : p d = false) :
    (x ++ d :: z).takeWhile p = x := by
  induction x with
  | nil => simp [List.takeWhile_cons, hd]
  | cons a x ih =>
    rw [List.cons_append, List.takeWhile_cons, if_pos (hx a (by simp))]
    rw [ih fun b hb => hx b (by simp [hb])]

/-! ### Claim C2 -/

theorem extract_malformed_aux (b : List Char)
    (h : idxOf? PI_SECTION_START b = none ∨ idxOf? PI_SECTION_END b = none ∨
      ∃ s e, idxOf? PI_SECTION_START b = some s ∧
        idxOf? PI_SECTION_END b = some e ∧ e ≤ s) :
    extractPiSection b = none ∧ extractUserContent b = jsTrim b := by
  unfold extractPiSection extractUserContent
  rcases h with h1 | h1 | ⟨s', e', hs, he, hle⟩
  · rw [h1]
    exact ⟨rfl, rfl⟩
  · rw [h1]
    cases hst : idxOf? PI_SECTION_START b
    · exact ⟨rfl, rfl⟩
    · exact ⟨rfl, rfl⟩
  · rw [hs, he]
    refine ⟨?_, ?_⟩ <;> simp [hle]

/-- C2: for every body in which the marker pair is absent or malformed
(start marker missing, end marker missing, or the first end-marker
occurrence at or before the first start-marker occurrence),
`extractPiSection` returns `none` and `extractUserContent` returns the
whole body trimmed. -/
theorem extract_malformed_markers (b : List Char)
    (h : idxOf? PI_SECTION_START b = none ∨ idxOf? PI_SECTION_END b = none ∨
      ∃ s e, idxOf? PI_SECTION_START b = some s ∧
        idxOf? PI_SECTION_END b = some e ∧ e ≤ s) :
    extractPiSection b = none ∧ extractUserContent b = jsTrim b :=
  extract_malformed_aux b h

/-- Witness for C2 at a concrete marker-free body. -/
theorem extract_malformed_markers_witness :
    extractPiSection "hello world".data = none ∧
    extractUserContent "hello world".data = jsTrim "hello world".data :=
  extract_malformed_markers "hello world".data (Or.inl (by decide))

/-! ### Claim C4 -/

/-- C4: `sessionMatchesIssue s N` is true exactly when `s` starts with the
literal prefix `#N: `, and the three prefix-boundary examples. -/
theorem sessionMatchesIssue_characterization :
    (∀ s N, sessionMatchesIssue (some s) N = true ↔
      ∃ t, getIssueSessionPrefix N ++ t = s) ∧
    sessionMatchesIssue (some "#12: Fix bug".data) 12 = true ∧
    sessionMatchesIssue (some "#12: Fix bug".data) 1 = false ∧
    sessionMatchesIssue (some "#120: x".data) 12 = false := by
  refine ⟨fun s N => ?_, by decide, by decide, by decide⟩
  exact isPre_iff (getIssueSessionPrefix N) s

/-! ### Claim C9 -/

/-- C9: the branch-name encoding is always recognized by the branch-number
decoder: `extractIssueNumberFromBranch (getIssueBranchName issue)` equals
`issue.number`, for every number and title (including titles with no
alphanumeric characters). -/
theorem extract_branch_decode (n : Nat) (z : List Char) :
    extractIssueNumberFromBranch ("todo/".data ++ (toDec n ++ '-' :: z)) = some n := by
  have hL : "todo/".data = ['t', 'o', 'd', 'o', '/'] := by decide
  unfold extractIssueNumberFromBranch
  rw [hL]
  have hc : isPre ['t', 'o', 'd', 'o', '/']
      (['t', 'o', 'd', 'o', '/'] ++ (toDec n ++ '-' :: z)) = true :=
    isPre_append ['t', 'o', 'd', 'o', '/'] (toDec n ++ '-' :: z)
  split
  · dsimp only
    have h5 : (5 : Nat) = (['t', 'o', 'd', 'o', '/'] : List Char).length := by decide
    rw [h5, List.drop_left]
    rw [takeWhile_append_stop _ (toDec_all_digits n) (by decide)]
    rw [if_neg (toDec_ne_nil n)]
    rw [List.drop_left]
    rw [List.head?_cons]
    simp only [parseDigits_toDec]
  · next h => exact absurd hc h

theorem extract_branch_roundtrip (number : Nat) (title : List Char) :
    extractIssueNumberFromBranch (getIssueBranchName number title) = some number := by
  unfold getIssueBranchName
  dsimp only
  rw [List.append_assoc]
  exact extract_branch_decode number
    (dropDashEnd
      ((stripDashEnds (collapseAux false (title.map Char.toLower))).take 50))

/-! ### Claim C3 -/

/-- C3: `getIssueBranchName` computes `todo/{number}-{slug}` with the slug
given by: lowercase, collapse runs of non-`[a-z0-9]` to single `-`, strip
leading/trailing `-`, truncate to 50 characters, strip trailing `-` again
(`claimBranchName` spells this out on `collapseRunsSpec`); and the concrete
example evaluates to `todo/7-fix-the-thing-v2`. -/
theorem branchName_characterization :
    (∀ number title, getIssueBranchName number title = claimBranchName number title) ∧
    getIssueBranchName 7 "Fix!! the Thing (v2)".data = "todo/7-fix-the-thing-v2".data := by
  constructor
  · intro number title
    unfold getIssueBranchName claimBranchName
    rw [(collapseAux_eq_spec (title.map Char.toLower)).1]
  · decide

/-! ### Claim C8 -/

/-- Array test on a parsed JSON value (`Array.isArray`). -/
def isArrJson : Json → Bool
  | .arr _ => true
  | _ => false

/-- C8: on CLI output that is not valid JSON (`parsed = none`) or parses to
a non-array value, `parseIssues` returns the empty list instead of raising
(so `listIssues` yields an empty issue list on malformed output). -/
theorem parseIssues_malformed (parsed : Option Json)
    (h : parsed = none ∨ ∃ j, parsed = some j ∧ isArrJson j = false) :
    parseIssues parsed = [] := by
  rcases h with rfl | ⟨j, rfl, hj⟩
  · rfl
  · cases j with
    | arr xs => simp [isArrJson] at hj
    | null => rfl
    | bool b => rfl
    | num n => rfl
    | str s => rfl
    | obj fields => rfl

/-- Witness for C8 at a concrete non-array JSON value. -/
theorem parseIssues_malformed_witness : parseIssues (some (Json.num 5)) = [] :=
  parseIssues_malformed (some (Json.num 5)) (Or.inr ⟨Json.num 5, rfl, rfl⟩)

/-! ### Claim C10 -/

theorem exceptBind_ok {α β : Type} {x : Except Unit α} {f : α → Except Unit β}
    {b : β} (h : (x >>= f) = Except.ok b) : ∃ a, x = Except.ok a ∧ f a = Except.ok b := by
  cases x with
  | error e => simp [Bind.bind, Except.bind] at h
  | ok a =>
    refine ⟨a, rfl, ?_⟩
    simpa [Bind.bind, Except.bind] using h

theorem stateOf_ok {v : JsVal} {sv : List Char} (h : stateOf v = Except.ok sv) :
    (sv = "open".data ∨ sv = "closed".data) ∧
    (sv = "closed".data ↔
      ∃ s, v = JsVal.json (Json.str s) ∧ s.map Char.toLower = "closed".data) := by
  cases v with
  | undefinedV =>
    simp only [stateOf, Except.ok.injEq] at h
    subst h
    refine ⟨Or.inl rfl, ?_⟩
    constructor
    · intro h2; exact absurd h2 (by decide)
    · rintro ⟨s, hs, -⟩; cases hs
  | json j =>
    cases j with
    | null =>
      simp only [stateOf, Except.ok.injEq] at h
      subst h
      refine ⟨Or.inl rfl, ?_⟩
      constructor
      · intro h2; exact absurd h2 (by decide)
      · rintro ⟨s, hs, -⟩; cases hs
    | str s =>
      simp only [stateOf, Except.ok.injEq] at h
      by_cases hcl : s.map Char.toLower = "closed".data
      · rw [if_pos hcl] at h
        subst h
        refine ⟨Or.inr rfl, ?_⟩
        constructor
        · intro _; exact ⟨s, rfl, hcl⟩
        · intro _; rfl
      · rw [if_neg hcl] at h
        subst h
        refine ⟨Or.inl rfl, ?_⟩
        constructor
        · intro h2; exact absurd h2 (by decide)
        · rintro ⟨s', hs', hcl'⟩
          cases hs'
          exact absurd hcl' hcl
    | bool b => simp [stateOf] at h
    | num n => simp [stateOf] at h
    | arr xs => simp [stateOf] at h
    | obj fields => simp [stateOf] at h

theorem convertIssue_state {j : Json} {issue : GhIssue}
    (h : convertIssue j = Except.ok issue) :
    (issue.state = "open".data ∨ issue.state = "closed".data) ∧
    (issue.state = "closed".data ↔
      ∃ s, jsGet j "state".data = Except.ok (JsVal.json (Json.str s)) ∧
        s.map Char.toLower = "closed".data) := by
  unfold convertIssue at h
  obtain ⟨number, h1, h⟩ := exceptBind_ok h
  obtain ⟨title, h2, h⟩ := exceptBind_ok h
  obtain ⟨stateV, h3, h⟩ := exceptBind_ok h
  obtain ⟨sv, h4, h⟩ := exceptBind_ok h
  obtain ⟨bodyV, h5, h⟩ := exceptBind_ok h
  obtain ⟨labelsV, h6, h⟩ := exceptBind_ok h
  obtain ⟨labels, h7, h⟩ := exceptBind_ok h
  obtain ⟨assigneesV, h8, h⟩ := exceptBind_ok h
  obtain ⟨assignees, h9, h⟩ := exceptBind_ok h
  obtain ⟨urlV, h10, h⟩ := exceptBind_ok h
  obtain ⟨createdV, h11, h⟩ := exceptBind_ok h
  obtain ⟨updatedV, h12, h⟩ := exceptBind_ok h
  have hissue : issue.state = sv := by
    simp only [pure, Except.pure, Except.ok.injEq] at h
    rw [← h]
  obtain ⟨hso, hsiff⟩ := stateOf_ok h4
  rw [hissue]
  refine ⟨hso, ?_⟩
  rw [hsiff]
  constructor
  · rintro ⟨s, hs, hlow⟩
    subst hs
    exact ⟨s, h3, hlow⟩
  · rintro ⟨s, hs, hlow⟩
    rw [h3] at hs
    cases hs
    exact ⟨s, rfl, hlow⟩

theorem convertAll_mem {xs : List Json} {ys : List GhIssue}
    (h : convertAll xs = Except.ok ys) :
    ∀ y ∈ ys, ∃ x ∈ xs, convertIssue x = Except.ok y := by
  induction xs generalizing ys with
  | nil =>
    simp only [convertAll, Except.ok.injEq] at h
    subst h
    intro y hy
    simp at hy
  | cons x xs ih =>
    simp only [convertAll] at h
    cases hx : convertIssue x with
    | error e => rw [hx] at h; cases h
    | ok y0 =>
      rw [hx] at h
      cases hall : convertAll xs with
      | error e => rw [hall] at h; cases h
      | ok ys0 =>
        rw [hall] at h
        cases h
        intro y hy
        rcases List.mem_cons.mp hy with rfl | hmem
        · exact ⟨x, by simp, hx⟩
        · obtain ⟨x', hx', hcv⟩ := ih hall y hmem
          exact ⟨x', by simp [hx'], hcv⟩

/-- C10: every issue produced by `parseIssue` or `parseIssues` comes from
`convertIssue`, and a converted issue has state exactly `"open"` or
`"closed"`, with `"closed"` exactly when the input's `state` field is a
string that lowercases to `"closed"` (anything else that converts at all is
normalized to `"open"`). -/
theorem parsed_issue_state_normalized :
    (∀ j issue, convertIssue j = Except.ok issue →
      (issue.state = "open".data ∨ issue.state = "closed".data) ∧
      (issue.state = "closed".data ↔
        ∃ s, jsGet j "state".data = Except.ok (JsVal.json (Json.str s)) ∧
          s.map Char.toLower = "closed".data)) ∧
    (∀ parsed issue, issue ∈ parseIssues parsed →
      ∃ j, convertIssue j = Except.ok issue) ∧
    (∀ parsed issue, parseIssue parsed = some issue →
      ∃ j, convertIssue j = Except.ok issue) := by
  refine ⟨fun j issue h => convertIssue_state h, ?_, ?_⟩
  · intro parsed issue h
    cases parsed with
    | none => simp [parseIssues] at h
    | some j =>
      cases j with
      | arr xs =>
        simp only [parseIssues] at h
        cases hall : convertAll xs with
        | error e => rw [hall] at h; simp at h
        | ok ys =>
          rw [hall] at h
          obtain ⟨x, -, hcv⟩ := convertAll_mem hall issue h
          exact ⟨x, hcv⟩
      | null => simp [parseIssues] at h
      | bool b => simp [parseIssues] at h
      | num n => simp [parseIssues] at h
      | str s => simp [parseIssues] at h
      | obj fields => simp [parseIssues] at h
  · intro parsed issue h
    cases parsed with
    | none => simp [parseIssue] at h
    | some j =>
      simp only [parseIssue] at h
      cases hcv : convertIssue j with
      | error e => rw [hcv] at h; cases h
      | ok issue0 =>
        rw [hcv] at h
        cases h
        exact ⟨j, hcv⟩

/-- Concrete input for the C10 witness. -/
def stateWitnessJson : Json := Json.obj [("state".data, Json.str "CLOSED".data)]

/-- The issue that `convertIssue` produces from `stateWitnessJson`. -/
def stateWitnessIssue : GhIssue :=
  ⟨JsVal.undefinedV, JsVal.undefinedV, "closed".data, JsVal.json (Json.str []), [], [],
    JsVal.json (Json.str []), JsVal.json (Json.str []), JsVal.json (Json.str [])⟩

/-- Witness for C10 at a concrete conversion. -/
theorem parsed_issue_state_normalized_witness :
    (stateWitnessIssue.state = "open".data ∨
      stateWitnessIssue.state = "closed".data) ∧
    (stateWitnessIssue.state = "closed".data ↔
      ∃ s, jsGet stateWitnessJson "state".data =
          Except.ok (JsVal.json (Json.str s)) ∧
        s.map Char.toLower = "closed".data) :=
  parsed_issue_state_normalized.1 stateWitnessJson stateWitnessIssue (by rfl)

/-! ### Claim C6 -/

/-- C6: `findLastPrCheckpointEntryId` returns the id of the last entry
whose label is `pr-created` or `pr-update` (every later entry being
unlabelled or otherwise labelled), `none` when no entry carries a
checkpoint label, `getEntriesAfter` with `none` returns the whole branch,
and the concrete three-entry example returns `e2`.  -/
theorem findLastPrCheckpoint_characterization :
    (∀ ctx : Ctx,
      (∀ p ∈ ctx.branch, isCheckpointLabel (ctx.getLabel p.1) = false) →
      findLastPrCheckpointEntryId ctx = none) ∧
    (∀ (ctx : Ctx) (pre : List (List Char × SessionEntry))
        (e : List Char × SessionEntry) (post : List (List Char × SessionEntry)),
      ctx.branch = pre ++ e :: post →
      isCheckpointLabel (ctx.getLabel e.1) = true →
      (∀ p ∈ post, isCheckpointLabel (ctx.getLabel p.1) = false) →
      findLastPrCheckpointEntryId ctx = some e.1) ∧
    (∀ ctx : Ctx, getEntriesAfter ctx none = ctx.branch) ∧
    findLastPrCheckpointEntryId
      ⟨[("e1".data, SessionEntry.other), ("e2".data, SessionEntry.other),
        ("e3".data, SessionEntry.other)],
        fun id => if id = "e2".data then some PR_LABEL_CREATED else none⟩ =
      some "e2".data := by
  refine ⟨?_, ?_, fun ctx => rfl, by decide⟩
  · intro ctx hall
    unfold findLastPrCheckpointEntryId
    rw [List.find?_eq_none.mpr fun p hp =>
      by simp [hall p (List.mem_reverse.mp hp)]]
    rfl
  · intro ctx pre e post hbr he hpost
    unfold findLastPrCheckpointEntryId
    rw [hbr, List.reverse_append, List.reverse_cons, List.append_assoc,
      List.find?_append]
    have hpost' : List.find?
        (fun p => isCheckpointLabel (ctx.getLabel p.1)) post.reverse = none :=
      List.find?_eq_none.mpr fun p hp =>
        by simp [hpost p (List.mem_reverse.mp hp)]
    rw [hpost']
    have hfind : List.find?
        (fun p : List Char × SessionEntry => isCheckpointLabel (ctx.getLabel p.1))
        (e :: pre.reverse) = some e := by
      simp [List.find?_cons, he]
    rw [List.singleton_append, hfind]
    rfl

/-- Witness for C6, applying the decomposition clause at a concrete branch. -/
theorem findLastPrCheckpoint_characterization_witness :
    findLastPrCheckpointEntryId
      ⟨[("a".data, SessionEntry.other), ("b".data, SessionEntry.other)],
        fun id => if id = "a".data then some PR_LABEL_UPDATED else none⟩ =
      some "a".data :=
  findLastPrCheckpoint_characterization.2.1
    ⟨[("a".data, SessionEntry.other), ("b".data, SessionEntry.other)],
      fun id => if id = "a".data then some PR_LABEL_UPDATED else none⟩
    [] ("a".data, SessionEntry.other) [("b".data, SessionEntry.other)]
    rfl (by decide) (by decide)

/-! ### Claim C5 -/

theorem foldl_append_eq_join (render : SessionEntry → List Char)
    (l : List SessionEntry) :
    ∀ acc : List Char,
      l.foldl (fun a e => a ++ render e) acc = acc ++ (l.map render).join := by
  induction l with
  | nil => intro acc; simp
  | cons e l ih =>
    intro acc
    rw [List.foldl_cons, ih (acc ++ render e)]
    simp [List.append_assoc]

/-- C5: both context gatherers cap their output at 8000 characters for
every input; the unscoped gatherer is the 8000-cap of the concatenated
per-entry renderings, and a user/assistant rendering truncates the message
text to its first 500 characters before concatenation. -/
theorem gather_context_bounded :
    (∀ entries : List SessionEntry, (gatherSessionContext entries).length ≤ 8000) ∧
    (∀ ctx : Ctx, (gatherScopedSessionContext ctx).length ≤ 8000) ∧
    (∀ entries : List SessionEntry,
      gatherSessionContext entries = ((entries.map renderEntry).join).take 8000) ∧
    (∀ content, renderEntry (SessionEntry.message (Msg.user content)) =
      if blocksText (normContent content) = [] then []
      else "User: ".data ++ (blocksText (normContent content)).take 500 ++ nl2) ∧
    (∀ content, renderEntry (SessionEntry.message (Msg.assistant content)) =
      if blocksText (normContent content) = [] then []
      else "Assistant: ".data ++ (blocksText (normContent content)).take 500 ++ nl2) := by
  refine ⟨?_, ?_, ?_, fun content => rfl, fun content => rfl⟩
  · intro entries
    exact List.length_take_le 8000 _
  · intro ctx
    exact List.length_take_le 8000 _
  · intro entries
    unfold gatherSessionContext
    rw [foldl_append_eq_join renderEntry entries []]
    rfl

/-! ### Claim C7 -/

/-- The rejection result of the `pr` action on `main`/`master`. -/
def mainBranchRejection : ToolResult :=
  ⟨("Error: Cannot create PR from main/master branch. " ++
    "Create a feature branch first.").data,
    some "on main branch".data, true⟩

/-- C7 (amended): an invocation of the `pr` action whose `gh`-CLI check
succeeds and whose cancellation signal is clear at the two checks before
the branch test is rejected with `details.error = "on main branch"` when
the current branch is `main` or `master`; and no invocation on
`main`/`master` ever calls `createPr`, cancelled or not. -/
theorem pr_on_main_rejected :
    (∀ (env : PrEnv) (b : List Char), env.ghCliOk = true →
      env.aborted 0 = false → env.aborted 1 = false →
      env.currentBranch = Except.ok b → isMainBranch b = true →
      ghTodoPrAction env = (mainBranchRejection, false)) ∧
    (∀ (env : PrEnv) (b : List Char), env.currentBranch = Except.ok b →
      isMainBranch b = true → (ghTodoPrAction env).2 = false) := by
  constructor
  · intro env b hcli h0 h1 hbr hmain
    unfold ghTodoPrAction
    rw [hcli, h0, hbr]
    simp [h1, hmain, mainBranchRejection]
  · intro env b hbr hmain
    unfold ghTodoPrAction
    cases hcli : env.ghCliOk with
    | false => simp
    | true =>
      cases h0 : env.aborted 0 with
      | true => simp
      | false =>
        rw [hbr]
        cases h1 : env.aborted 1 with
        | true => simp
        | false => simp [hmain]

/-- A fully cancelled invocation on `main` (every signal read aborted). -/
def mainAbortedEnv : PrEnv where
  ghCliOk := true
  aborted := fun _ => true
  abortedCatch := false
  currentBranch := Except.ok "main".data
  sessionName := none
  paramNumber := none
  paramClose := none
  issueFor := fun _ => Except.error []
  uncommitted := Except.ok false
  upstream := Except.ok false
  pushResult := Except.ok ()
  sctx := ⟨[], fun _ => none⟩
  template := none
  fillTemplateResult := fun _ _ _ => []
  genSummaryResult := fun _ _ => []
  createPr := fun _ _ => Except.error []

/-- Counterexample to C7 as stated: an invocation on `main` whose
cancellation signal is set returns the `Cancelled` result, not an error
with `details.error = "on main branch"` (though `createPr` is still not
called). -/
theorem pr_on_main_rejected_counterexample :
    isMainBranch "main".data = true ∧
    mainAbortedEnv.currentBranch = Except.ok "main".data ∧
    (ghTodoPrAction mainAbortedEnv).1.detailsError ≠ some "on main branch".data ∧
    (ghTodoPrAction mainAbortedEnv).1.isError = false := by
  refine ⟨by decide, rfl, by decide, rfl⟩

/-- A non-cancelled invocation on `main`. -/
def mainEnv : PrEnv where
  ghCliOk := true
  aborted := fun _ => false
  abortedCatch := false
  currentBranch := Except.ok "main".data
  sessionName := none
  paramNumber := none
  paramClose := none
  issueFor := fun _ => Except.error []
  uncommitted := Except.ok false
  upstream := Except.ok false
  pushResult := Except.ok ()
  sctx := ⟨[], fun _ => none⟩
  template := none
  fillTemplateResult := fun _ _ _ => []
  genSummaryResult := fun _ _ => []
  createPr := fun _ _ => Except.error []

/-- Witness for C7 (amended) at a concrete non-cancelled invocation. -/
theorem pr_on_main_rejected_witness :
    ghTodoPrAction mainEnv = (mainBranchRejection, false) :=
  pr_on_main_rejected.1 mainEnv "main".data rfl rfl rfl rfl (by decide)

/-! ### Claim C1: infrastructure

Canonical decomposition of `wrapInCollapsible` output into newline-separated
segments, used to locate the first marker occurrences and to drive the
details-regex evaluation. -/

def SEG_DET : List Char := "<details>".data

def SEG_SUM : List Char := "<summary>".data

def SEG_ENDSUM : List Char := "</summary>".data

def SEG_ENDDET : List Char := "</details>".data

/-- The text strictly between the two markers in a wrapped section. -/
def interior (n' : List Char) : List Char :=
  '\n' :: (SEG_DET ++ '\n' ::
    (SEG_SUM ++ (PI_SECTION_TITLE ++ (SEG_ENDSUM ++ '\n' :: ('\n' ::
      (n' ++ '\n' :: ('\n' :: (SEG_ENDDET ++ ['\n']))))))))

/-- The wrapped section in marker/interior/marker form. -/
def wrapbody (n' : List Char) : List Char :=
  PI_SECTION_START ++ (interior n' ++ PI_SECTION_END)

theorem wrap_eq {content : List Char} (h : jsTrim content ≠ []) :
    wrapInCollapsible content = wrapbody (jsTrim content) := by
  unfold wrapInCollapsible
  rw [if_neg h]
  rw [show "\n<details>\n<summary>".data =
    '\n' :: (SEG_DET ++ '\n' :: SEG_SUM) from by decide]
  rw [show "</summary>\n\n".data = SEG_ENDSUM ++ ['\n', '\n'] from by decide]
  rw [show "\n\n</details>\n".data =
    '\n' :: ('\n' :: (SEG_ENDDET ++ ['\n'])) from by decide]
  simp [wrapbody, interior, List.append_assoc]

theorem wrapbody_ne_nil (n' : List Char) : wrapbody n' ≠ [] := by
  unfold wrapbody PI_SECTION_START
  intro h
  have := congrArg List.length h
  simp at this

theorem not_occursIn_of_cb {pat x : List Char} (h : occursB pat x = false) :
    ¬ occursIn pat x :=
  (occursB_false_iff pat x).mp h

theorem idxOf?_build (pat x : List Char) (d : Char) (y : List Char) (k : Nat)
    (hne : pat ≠ []) (hd : d ∉ pat) (hx : ¬ occursIn pat x)
    (hy : idxOf? pat y = some k) :
    idxOf? pat (x ++ d :: y) = some (x.length + 1 + k) := by
  rw [idxOf?_append_sep pat x d y hne hd hx, hy]
  rfl

theorem idxOf?_build_cons (pat : List Char) (d : Char) (y : List Char) (k : Nat)
    (hne : pat ≠ []) (hd : d ∉ pat) (hy : idxOf? pat y = some k) :
    idxOf? pat (d :: y) = some (1 + k) := by
  have h := idxOf?_build pat [] d y k hne hd (by rintro ⟨u, v, huv⟩; simp at huv; exact hne (huv.2.1.symm ▸ huv.2.1) ) hy
  simpa using h

theorem not_occursIn_nil {pat : List Char} (hne : pat ≠ []) :
    ¬ occursIn pat [] := by
  rintro ⟨u, v, huv⟩
  have h1 := List.append_eq_nil.mp huv.symm
  have h2 := List.append_eq_nil.mp h1.1
  exact hne h2.2

theorem idxOf?_peel_pre (pat q z pre : List Char) (k : Nat)
    (hne : pat ≠ []) (hnl : '\n' ∉ pat) (hq : ¬ occursIn pat q)
    (hpre : pre = [] ∨ pre = q ++ nl2)
    (hz : idxOf? pat z = some k) :
    idxOf? pat (pre ++ z) = some (pre.length + k) := by
  rcases hpre with rfl | rfl
  · simpa using hz
  · have h1 : idxOf? pat ('\n' :: z) = some (1 + k) :=
      idxOf?_build_cons pat '\n' z k hne hnl hz
    have h2 : idxOf? pat (q ++ '\n' :: ('\n' :: z)) =
        some (q.length + 1 + (1 + k)) :=
      idxOf?_build pat q '\n' ('\n' :: z) (1 + k) hne hnl hq h1
    have heq : (q ++ nl2) ++ z = q ++ '\n' :: ('\n' :: z) := by
      simp [nl2]
    rw [heq, h2]
    congr 1
    simp [nl2]
    omega

theorem interior_len (n' : List Char) :
    (PI_SECTION_START ++ interior n').length = 88 + n'.length := by
  simp [interior, List.length_append, List.length_cons,
    show PI_SECTION_START.length = 29 from by decide,
    show SEG_DET.length = 9 from by decide,
    show SEG_SUM.length = 9 from by decide,
    show PI_SECTION_TITLE.length = 14 from by decide,
    show SEG_ENDSUM.length = 10 from by decide,
    show SEG_ENDDET.length = 10 from by decide]
  omega

theorem idx_start_wrap (n' post : List Char) :
    idxOf? PI_SECTION_START (wrapbody n' ++ post) = some 0 := by
  have h : wrapbody n' ++ post =
      PI_SECTION_START ++ (interior n' ++ (PI_SECTION_END ++ post)) := by
    simp [wrapbody, List.append_assoc]
  rw [h]
  exact idxOf?_of_isPre (isPre_append _ _)

theorem idx_end_wrap (n' post : List Char)
    (hnE : ¬ occursIn PI_SECTION_END n') :
    idxOf? PI_SECTION_END (wrapbody n' ++ post) =
      some ((PI_SECTION_START ++ interior n').length) := by
  have hne : PI_SECTION_END ≠ [] := by decide
  have hnl : '\n' ∉ PI_SECTION_END := by decide
  have hx1 : ¬ occursIn PI_SECTION_END PI_SECTION_START :=
    not_occursIn_of_cb (by decide)
  have hx2 : ¬ occursIn PI_SECTION_END SEG_DET := not_occursIn_of_cb (by decide)
  have hx3 : ¬ occursIn PI_SECTION_END
      (SEG_SUM ++ (PI_SECTION_TITLE ++ SEG_ENDSUM)) :=
    not_occursIn_of_cb (by decide)
  have hx4 : ¬ occursIn PI_SECTION_END SEG_ENDDET :=
    not_occursIn_of_cb (by decide)
  have t0 : idxOf? PI_SECTION_END (PI_SECTION_END ++ post) = some 0 :=
    idxOf?_of_isPre (isPre_append _ _)
  have t1 := idxOf?_build PI_SECTION_END SEG_ENDDET '\n'
    (PI_SECTION_END ++ post) 0 hne hnl hx4 t0
  have t2 := idxOf?_build_cons PI_SECTION_END '\n' _ _ hne hnl t1
  have t3 := idxOf?_build PI_SECTION_END n' '\n' _ _ hne hnl hnE t2
  have t4 := idxOf?_build_cons PI_SECTION_END '\n' _ _ hne hnl t3
  have t5 := idxOf?_build PI_SECTION_END
    (SEG_SUM ++ (PI_SECTION_TITLE ++ SEG_ENDSUM)) '\n' _ _ hne hnl hx3 t4
  have t6 := idxOf?_build PI_SECTION_END SEG_DET '\n' _ _ hne hnl hx2 t5
  have t7 := idxOf?_build PI_SECTION_END PI_SECTION_START '\n' _ _ hne hnl hx1 t6
  have hcanon : wrapbody n' ++ post =
      PI_SECTION_START ++ '\n' :: (SEG_DET ++ '\n' ::
        ((SEG_SUM ++ (PI_SECTION_TITLE ++ SEG_ENDSUM)) ++ '\n' :: ('\n' ::
          (n' ++ '\n' :: ('\n' ::
            (SEG_ENDDET ++ '\n' :: (PI_SECTION_END ++ post))))))) := by
    simp [wrapbody, interior, List.append_assoc]
  rw [hcanon, t7, interior_len]
  congr 1
  simp [List.length_append,
    show PI_SECTION_START.length = 29 from by decide,
    show SEG_DET.length = 9 from by decide,
    show SEG_SUM.length = 9 from by decide,
    show PI_SECTION_TITLE.length = 14 from by decide,
    show SEG_ENDSUM.length = 10 from by decide,
    show SEG_ENDDET.length = 10 from by decide]
  omega

theorem detailsMatch?_cons_eq (c : Char) (t : List Char) :
    detailsMatch? (c :: t) =
      match (if isPre "<details>".data (c :: t)
          then scanSummary ((c :: t).drop 9) else none) with
      | some r => some r
      | none => detailsMatch? t := rfl

theorem scanSummary_cons_eq (c : Char) (t : List Char) :
    scanSummary (c :: t) =
      match (if isPre "<summary>".data (c :: t)
          then afterSummary ((c :: t).drop 9) else none) with
      | some r => some r
      | none => scanSummary t := rfl

theorem detailsMatch?_cons_neg {c : Char} {t : List Char}
    (h : isPre "<details>".data (c :: t) = false) :
    detailsMatch? (c :: t) = detailsMatch? t := by
  rw [detailsMatch?_cons_eq, h, if_neg (by decide : ¬ (false = true))]

theorem detailsMatch?_hit {t r : List Char} (h : scanSummary t = some r) :
    detailsMatch? ("<details>".data ++ t) = some r := by
  have hsplit : "<details>".data ++ t = '<' :: ("details>".data ++ t) := by
    rw [show "<details>".data = '<' :: "details>".data from by decide]
    rfl
  have hpre : isPre "<details>".data ('<' :: ("details>".data ++ t)) = true := by
    rw [← hsplit]
    exact isPre_append _ _
  have hdrop : ('<' :: ("details>".data ++ t)).drop 9 = t := by
    rw [← hsplit, show (9 : Nat) = "<details>".data.length from by decide]
    exact List.drop_left _ _
  rw [hsplit, detailsMatch?_cons_eq, hpre, if_pos rfl, hdrop, h]

theorem scanSummary_cons_neg {c : Char} {t : List Char}
    (h : isPre "<summary>".data (c :: t) = false) :
    scanSummary (c :: t) = scanSummary t := by
  rw [scanSummary_cons_eq, h, if_neg (by decide : ¬ (false = true))]

theorem scanSummary_hit {t r : List Char} (h : afterSummary t = some r) :
    scanSummary ("<summary>".data ++ t) = some r := by
  have hsplit : "<summary>".data ++ t = '<' :: ("summary>".data ++ t) := by
    rw [show "<summary>".data = '<' :: "summary>".data from by decide]
    rfl
  have hpre : isPre "<summary>".data ('<' :: ("summary>".data ++ t)) = true := by
    rw [← hsplit]
    exact isPre_append _ _
  have hdrop : ('<' :: ("summary>".data ++ t)).drop 9 = t := by
    rw [← hsplit, show (9 : Nat) = "<summary>".data.length from by decide]
    exact List.drop_left _ _
  rw [hsplit, scanSummary_cons_eq, hpre, if_pos rfl, hdrop, h]

theorem afterSummary_hit {w : List Char} {m : Nat}
    (hidx : idxOf? "</details>".data w = some m) :
    afterSummary ("Pi Agent Notes".data ++ ("</summary>".data ++ w)) =
      some (w.take m) := by
  have hsplit : "</summary>".data ++ w = '<' :: ("/summary>".data ++ w) := by
    rw [show "</summary>".data = '<' :: "/summary>".data from by decide]
    rfl
  have htw : ("Pi Agent Notes".data ++ ("</summary>".data ++ w)).takeWhile
      (fun c => !(c = '<')) = "Pi Agent Notes".data := by
    rw [hsplit]
    exact takeWhile_append_stop _ (by decide) (by decide)
  have hdrop1 : ("Pi Agent Notes".data ++ ("</summary>".data ++ w)).drop
      ("Pi Agent Notes".data.length) = "</summary>".data ++ w :=
    List.drop_left _ _
  have hpre : isPre "</summary>".data ("</summary>".data ++ w) = true :=
    isPre_append _ _
  have hdrop2 : ("Pi Agent Notes".data ++ ("</summary>".data ++ w)).drop
      ("Pi Agent Notes".data.length + 10) = w := by
    rw [show "Pi Agent Notes".data ++ ("</summary>".data ++ w) =
      ("Pi Agent Notes".data ++ "</summary>".data) ++ w from by
        rw [List.append_assoc]]
    rw [show "Pi Agent Notes".data.length + 10 =
      ("Pi Agent Notes".data ++ "</summary>".data).length from by decide]
    exact List.drop_left _ _
  unfold afterSummary
  rw [htw]
  dsimp only
  rw [hdrop1, if_pos hpre, hdrop2, hidx]

theorem take_pad (n' z : List Char) :
    ('\n' :: ('\n' :: (n' ++ '\n' :: ('\n' :: z)))).take (n'.length + 4) =
      '\n' :: ('\n' :: (n' ++ ['\n', '\n'])) := by
  rw [show n'.length + 4 = (n'.length + 3) + 1 from by omega, List.take_succ_cons]
  rw [show n'.length + 3 = (n'.length + 2) + 1 from by omega, List.take_succ_cons]
  rw [List.take_append_eq_append_take,
    List.take_of_length_le (by omega : n'.length ≤ n'.length + 2),
    show n'.length + 2 - n'.length = 2 from by omega]
  simp

theorem detailsMatch?_interior (n' : List Char)
    (hnD : ¬ occursIn "</details>".data n') :
    detailsMatch? (interior n') =
      some ('\n' :: ('\n' :: (n' ++ ['\n', '\n']))) := by
  have hne : "</details>".data ≠ [] := by decide
  have hnl : '\n' ∉ "</details>".data := by decide
  have u0 : idxOf? "</details>".data (SEG_ENDDET ++ ['\n']) = some 0 :=
    idxOf?_of_isPre (isPre_append _ _)
  have u1 := idxOf?_build_cons "</details>".data '\n' _ _ hne hnl u0
  have u2 := idxOf?_build "</details>".data n' '\n' _ _ hne hnl hnD u1
  have u3 := idxOf?_build_cons "</details>".data '\n' _ _ hne hnl u2
  have u4 := idxOf?_build_cons "</details>".data '\n' _ _ hne hnl u3
  rw [show 1 + (1 + (n'.length + 1 + (1 + 0))) = n'.length + 4 from by omega] at u4
  have hafter := afterSummary_hit u4
  rw [take_pad] at hafter
  have hscan : scanSummary ('\n' ::
      (SEG_SUM ++ (PI_SECTION_TITLE ++ (SEG_ENDSUM ++ '\n' :: ('\n' ::
        (n' ++ '\n' :: ('\n' :: (SEG_ENDDET ++ ['\n'])))))))) =
      some ('\n' :: ('\n' :: (n' ++ ['\n', '\n']))) := by
    rw [scanSummary_cons_neg
      (isPre_false_of_head _ '<' '\n' _ (by decide) (by decide))]
    exact scanSummary_hit hafter
  have hdm : detailsMatch? (interior n') =
      detailsMatch? (SEG_DET ++ '\n' ::
        (SEG_SUM ++ (PI_SECTION_TITLE ++ (SEG_ENDSUM ++ '\n' :: ('\n' ::
          (n' ++ '\n' :: ('\n' :: (SEG_ENDDET ++ ['\n'])))))))) := by
    unfold interior
    exact detailsMatch?_cons_neg
      (isPre_false_of_head _ '<' '\n' _ (by decide) (by decide))
  rw [hdm]
  exact detailsMatch?_hit hscan

theorem extract_on_updated (q n' pre post : List Char)
    (hq1 : ¬ occursIn PI_SECTION_START q) (hq2 : ¬ occursIn PI_SECTION_END q)
    (hpre : pre = [] ∨ pre = q ++ nl2)
    (hnE : ¬ occursIn PI_SECTION_END n')
    (hnD : ¬ occursIn "</details>".data n') (hnt : jsTrim n' = n') :
    extractPiSection (pre ++ (wrapbody n' ++ post)) = some n' := by
  have hidxS : idxOf? PI_SECTION_START (pre ++ (wrapbody n' ++ post)) =
      some (pre.length + 0) :=
    idxOf?_peel_pre _ q _ pre 0 (by decide) (by decide) hq1 hpre
      (idx_start_wrap n' post)
  have hidxE : idxOf? PI_SECTION_END (pre ++ (wrapbody n' ++ post)) =
      some (pre.length + (PI_SECTION_START ++ interior n').length) :=
    idxOf?_peel_pre _ q _ pre _ (by decide) (by decide) hq2 hpre
      (idx_end_wrap n' post hnE)
  have hgt : ¬ (pre.length + (PI_SECTION_START ++ interior n').length ≤
      pre.length + 0) := by
    rw [interior_len n']
    omega
  have hslice : ((pre ++ (wrapbody n' ++ post)).take
      (pre.length + (PI_SECTION_START ++ interior n').length)).drop
      ((pre.length + 0) + PI_SECTION_START.length) = interior n' := by
    have hu : pre ++ (wrapbody n' ++ post) =
        (pre ++ (PI_SECTION_START ++ interior n')) ++
          (PI_SECTION_END ++ post) := by
      simp [wrapbody, List.append_assoc]
    rw [hu]
    have hlen1 : pre.length + (PI_SECTION_START ++ interior n').length =
        (pre ++ (PI_SECTION_START ++ interior n')).length := by simp
    rw [hlen1, List.take_left]
    rw [show pre.length + 0 + PI_SECTION_START.length =
      pre.length + PI_SECTION_START.length from by omega]
    rw [List.drop_append_eq_append_drop]
    rw [List.drop_eq_nil_of_le
      (by omega : pre.length ≤ pre.length + PI_SECTION_START.length)]
    rw [show pre.length + PI_SECTION_START.length - pre.length =
      PI_SECTION_START.length from by omega]
    rw [List.nil_append, List.drop_left]
  unfold extractPiSection
  rw [hidxS, hidxE]
  dsimp only
  rw [if_neg hgt, hslice, detailsMatch?_interior n' hnD]
  dsimp only
  rw [jsTrim_cons_ws _ (by decide), jsTrim_cons_ws _ (by decide)]
  rw [show n' ++ ['\n', '\n'] = (n' ++ ['\n']) ++ ['\n'] from by
    simp [List.append_assoc]]
  rw [jsTrim_append_ws _ (by decide), jsTrim_append_ws _ (by decide), hnt]

theorem jsTrim_append_nl2 (q : List Char) (hq : jsTrim q = q) :
    jsTrim (q ++ nl2) = q := by
  rw [show q ++ nl2 = (q ++ ['\n']) ++ ['\n'] from by simp [nl2]]
  rw [jsTrim_append_ws _ (by decide), jsTrim_append_ws _ (by decide), hq]

theorem jsTrim_cons_nl2 (a : List Char) (ha : jsTrim a = a) :
    jsTrim (nl2 ++ a) = a := by
  rw [show nl2 ++ a = '\n' :: ('\n' :: a) from by simp [nl2]]
  rw [jsTrim_cons_ws _ (by decide), jsTrim_cons_ws _ (by decide), ha]

theorem user_on_updated (q n' a pre post : List Char)
    (hq1 : ¬ occursIn PI_SECTION_START q) (hq2 : ¬ occursIn PI_SECTION_END q)
    (hpre : pre = [] ∧ q = [] ∨ pre = q ++ nl2 ∧ jsTrim q = q)
    (hpost : post = [] ∧ a = [] ∨ post = nl2 ++ a ∧ jsTrim a = a)
    (hnE : ¬ occursIn PI_SECTION_END n') :
    extractUserContent (pre ++ (wrapbody n' ++ post)) = joinParts [q, a] := by
  have hpre' : pre = [] ∨ pre = q ++ nl2 := by
    rcases hpre with ⟨h, -⟩ | ⟨h, -⟩
    · exact Or.inl h
    · exact Or.inr h
  have hidxS : idxOf? PI_SECTION_START (pre ++ (wrapbody n' ++ post)) =
      some (pre.length + 0) :=
    idxOf?_peel_pre _ q _ pre 0 (by decide) (by decide) hq1 hpre'
      (idx_start_wrap n' post)
  have hidxE : idxOf? PI_SECTION_END (pre ++ (wrapbody n' ++ post)) =
      some (pre.length + (PI_SECTION_START ++ interior n').length) :=
    idxOf?_peel_pre _ q _ pre _ (by decide) (by decide) hq2 hpre'
      (idx_end_wrap n' post hnE)
  have hgt : ¬ (pre.length + (PI_SECTION_START ++ interior n').length ≤
      pre.length + 0) := by
    rw [interior_len n']
    omega
  have hbefore : jsTrim ((pre ++ (wrapbody n' ++ post)).take (pre.length + 0)) = q := by
    rw [show pre.length + 0 = pre.length from by omega, List.take_left]
    rcases hpre with ⟨h1, h2⟩ | ⟨h1, h2⟩
    · rw [h1, h2]
      rfl
    · rw [h1]
      exact jsTrim_append_nl2 q h2
  have hafter : jsTrim ((pre ++ (wrapbody n' ++ post)).drop
      (pre.length + (PI_SECTION_START ++ interior n').length +
        PI_SECTION_END.length)) = a := by
    have hu : pre ++ (wrapbody n' ++ post) =
        (pre ++ ((PI_SECTION_START ++ interior n') ++ PI_SECTION_END)) ++ post := by
      simp [wrapbody, List.append_assoc]
    have hlen : pre.length + (PI_SECTION_START ++ interior n').length +
        PI_SECTION_END.length =
        (pre ++ ((PI_SECTION_START ++ interior n') ++ PI_SECTION_END)).length := by
      simp
      omega
    rw [hu, hlen, List.drop_left]
    rcases hpost with ⟨h1, h2⟩ | ⟨h1, h2⟩
    · rw [h1, h2]
      rfl
    · rw [h1]
      exact jsTrim_cons_nl2 a h2
  unfold extractUserContent
  rw [hidxS, hidxE]
  dsimp only
  rw [if_neg hgt, hbefore, hafter]

theorem joinParts_pair_nil (x : List Char) : joinParts [x, []] = x := by
  by_cases hx : x = []
  · simp [joinParts, hx]
  · simp [joinParts, hx]

theorem roundtrip_parts (before n' after : List Char)
    (hq1 : ¬ occursIn PI_SECTION_START before)
    (hq2 : ¬ occursIn PI_SECTION_END before)
    (hbt : jsTrim before = before) (hat : jsTrim after = after)
    (hnE : ¬ occursIn PI_SECTION_END n')
    (hnD : ¬ occursIn "</details>".data n') (hnt : jsTrim n' = n') :
    extractPiSection (joinParts [before, wrapbody n', after]) = some n' ∧
    extractUserContent (joinParts [before, wrapbody n', after]) =
      joinParts [before, after] := by
  have hwne : wrapbody n' ≠ [] := wrapbody_ne_nil n'
  by_cases hB : before = [] <;> by_cases hA : after = []
  · have hshape : joinParts [before, wrapbody n', after] =
        [] ++ (wrapbody n' ++ []) := by
      simp [joinParts, hB, hA, hwne]
    rw [hshape]
    constructor
    · exact extract_on_updated [] n' [] []
        (not_occursIn_nil (by decide)) (not_occursIn_nil (by decide))
        (Or.inl rfl) hnE hnD hnt
    · rw [user_on_updated [] n' [] [] []
        (not_occursIn_nil (by decide)) (not_occursIn_nil (by decide))
        (Or.inl ⟨rfl, rfl⟩) (Or.inl ⟨rfl, rfl⟩) hnE]
      rw [hB, hA]
  · have hshape : joinParts [before, wrapbody n', after] =
        [] ++ (wrapbody n' ++ (nl2 ++ after)) := by
      simp [joinParts, hB, hA, hwne, List.append_assoc]
    rw [hshape]
    constructor
    · exact extract_on_updated [] n' [] (nl2 ++ after)
        (not_occursIn_nil (by decide)) (not_occursIn_nil (by decide))
        (Or.inl rfl) hnE hnD hnt
    · rw [user_on_updated [] n' after [] (nl2 ++ after)
        (not_occursIn_nil (by decide)) (not_occursIn_nil (by decide))
        (Or.inl ⟨rfl, rfl⟩) (Or.inr ⟨rfl, hat⟩) hnE]
      rw [hB]
  · have hshape : joinParts [before, wrapbody n', after] =
        (before ++ nl2) ++ (wrapbody n' ++ []) := by
      simp [joinParts, hB, hA, hwne]
    rw [hshape]
    constructor
    · exact extract_on_updated before n' (before ++ nl2) []
        hq1 hq2 (Or.inr rfl) hnE hnD hnt
    · rw [user_on_updated before n' [] (before ++ nl2) []
        hq1 hq2 (Or.inr ⟨rfl, hbt⟩) (Or.inl ⟨rfl, rfl⟩) hnE]
      rw [hA]
  · have hshape : joinParts [before, wrapbody n', after] =
        (before ++ nl2) ++ (wrapbody n' ++ (nl2 ++ after)) := by
      simp [joinParts, hB, hA, hwne, List.append_assoc]
    rw [hshape]
    constructor
    · exact extract_on_updated before n' (before ++ nl2) (nl2 ++ after)
        hq1 hq2 (Or.inr rfl) hnE hnD hnt
    · exact user_on_updated before n' after (before ++ nl2) (nl2 ++ after)
        hq1 hq2 (Or.inr ⟨rfl, hbt⟩) (Or.inr ⟨rfl, hat⟩) hnE

theorem updAppend_eq_joinParts (b W : List Char) (hW : W ≠ []) :
    updAppend b W = joinParts [jsTrim b, W, []] := by
  unfold updAppend
  by_cases hb : jsTrim b = []
  · rw [if_pos hb]
    simp [joinParts, hb, hW]
  · rw [if_neg hb]
    simp [joinParts, hb, hW]

/-- C1 (amended): provided the notes trim to a nonempty string that
contains neither the end marker nor `</details>`, and the body either
contains no marker at all or contains a validly ordered marker pair
(first end marker strictly after the first start marker), updating the
agent-notes section and extracting it again gives exactly the trimmed
notes, and the user content is unchanged. -/
theorem updatePiSection_roundtrip (b n : List Char)
    (hn : jsTrim n ≠ [])
    (hnE : occursB PI_SECTION_END (jsTrim n) = false)
    (hnD : occursB "</details>".data (jsTrim n) = false)
    (hb : (idxOf? PI_SECTION_START b = none ∧ idxOf? PI_SECTION_END b = none) ∨
      ∃ s e, idxOf? PI_SECTION_START b = some s ∧
        idxOf? PI_SECTION_END b = some e ∧ s < e) :
    extractPiSection (updatePiSection b n) = some (jsTrim n) ∧
    extractUserContent (updatePiSection b n) = extractUserContent b := by
  have hnE' := not_occursIn_of_cb hnE
  have hnD' := not_occursIn_of_cb hnD
  have hnt := jsTrim_idem n
  have hwne : wrapbody (jsTrim n) ≠ [] := wrapbody_ne_nil _
  rcases hb with ⟨hS, hE⟩ | ⟨sIdx, eIdx, hS, hE, hlt⟩
  · have hqS : ¬ occursIn PI_SECTION_START (jsTrim b) := fun h =>
      (idxOf?_eq_none_iff _ _).mp hS (occursIn_of_occursIn_jsTrim h)
    have hqE : ¬ occursIn PI_SECTION_END (jsTrim b) := fun h =>
      (idxOf?_eq_none_iff _ _).mp hE (occursIn_of_occursIn_jsTrim h)
    have hupd : updatePiSection b n =
        joinParts [jsTrim b, wrapbody (jsTrim n), []] := by
      unfold updatePiSection
      dsimp only
      rw [hS]
      rw [wrap_eq hn]
      exact updAppend_eq_joinParts b _ hwne
    have hub : extractUserContent b = jsTrim b :=
      (extract_malformed_aux b (Or.inl hS)).2
    rw [hupd, hub]
    have hparts := roundtrip_parts (jsTrim b) (jsTrim n) []
      hqS hqE (jsTrim_idem b) rfl hnE' hnD' hnt
    rw [joinParts_pair_nil] at hparts
    exact hparts
  · have hq1 : ¬ occursIn PI_SECTION_START (jsTrim (b.take sIdx)) := fun h =>
      not_occursIn_take hS (by decide) (le_refl sIdx)
        (occursIn_of_occursIn_jsTrim h)
    have hq2 : ¬ occursIn PI_SECTION_END (jsTrim (b.take sIdx)) := fun h =>
      not_occursIn_take hE (by decide) (le_of_lt hlt)
        (occursIn_of_occursIn_jsTrim h)
    have hupd : updatePiSection b n =
        joinParts [jsTrim (b.take sIdx), wrapbody (jsTrim n),
          jsTrim (b.drop (eIdx + PI_SECTION_END.length))] := by
      unfold updatePiSection
      dsimp only
      rw [hS, hE]
      dsimp only
      rw [if_neg (by omega : ¬ eIdx ≤ sIdx), wrap_eq hn]
    have hub : extractUserContent b =
        joinParts [jsTrim (b.take sIdx),
          jsTrim (b.drop (eIdx + PI_SECTION_END.length))] := by
      unfold extractUserContent
      rw [hS, hE]
      dsimp only
      rw [if_neg (by omega : ¬ eIdx ≤ sIdx)]
    rw [hupd, hub]
    exact roundtrip_parts (jsTrim (b.take sIdx)) (jsTrim n)
      (jsTrim (b.drop (eIdx + PI_SECTION_END.length)))
      hq1 hq2 (jsTrim_idem _) (jsTrim_idem _) hnE' hnD' hnt

/-- Counterexample to C1 as stated: with an empty body and empty notes the
section does not round-trip (`extractPiSection` gives `none`, not
`some ""`), because `wrapInCollapsible` of blank content is the empty
string and no section is ever written. -/
theorem updatePiSection_roundtrip_counterexample :
    ¬ (extractPiSection (updatePiSection [] []) = some (jsTrim []) ∧
      extractUserContent (updatePiSection [] []) = extractUserContent []) := by
  decide

/-- Witness for C1 (amended) at concrete body and notes. -/
theorem updatePiSection_roundtrip_witness :
    extractPiSection (updatePiSection "hello".data "plan: do it".data) =
      some (jsTrim "plan: do it".data) ∧
    extractUserContent (updatePiSection "hello".data "plan: do it".data) =
      extractUserContent "hello".data :=
  updatePiSection_roundtrip "hello".data "plan: do it".data
    (by decide) (by decide) (by decide) (Or.inl (by decide))

end GhTodo
